import Mathlib

set_option maxRecDepth 100000

/-!
# REIVM core, verified

A shallow embedding of the REIVM virtual machine (TypeScript sources:
`src/vm.ts`, `src/dictionary.ts`, `src/word.ts`, `src/stack.ts` as printed in
full in `SESSION_ARCHITECTURE.md`, `src/errors.ts`, `src/bootstrap.ts` and the
CORE word libraries under `src/core/`), together with proofs of the
behavioural properties stated in the specification.

Modelling conventions:

* JavaScript numbers are modelled as exact rationals extended with
  `±Infinity` and `NaN`.  Every numeric value appearing in a theorem below is
  a small integer, where IEEE-754 double arithmetic is exact, so the rational
  model agrees with the code on everything proved here.  (`Number(token)`
  parsing is modelled exactly as a predicate; double rounding of non-integer
  literals is the only approximation and no theorem depends on it.)
* `new Date()` timestamps are modelled by an explicit `now : Nat` argument
  threaded into the operations that read the clock.
* Imperative methods that can throw are modelled as functions returning the
  error together with the state as mutated so far (JS exceptions unwind the
  call, not the heap), e.g. `Except (Stack × JSError) Stack`.
* Host call-stack exhaustion of the recursive interpreter is modelled by a
  fuel parameter; running out of fuel is a distinguished error that the
  source can only produce as a JS `RangeError` (stack overflow of the host).
* The VM's `tracing` flag and `trace` buffer play no role in any claim and
  are excluded from serialisation and cloning by the source; they are not
  modelled.
-/

namespace REIVM

/-- An exact rational as a fraction with positive denominator, not
necessarily in lowest terms (normalisation would need `Nat.gcd`, which the
kernel cannot evaluate; value equality and order are decided by
cross-multiplication instead).  Every constructor below keeps `d`
positive, and every integer-valued computation in the claims keeps
`d = 1`, so the fractions appearing in concrete statements are literal. -/
structure Frac where
  n : Int
  d : Int
deriving DecidableEq

/-- The integer `k` as a fraction. -/
def Frac.int (k : Int) : Frac := ⟨k, 1⟩

def Frac.neg (a : Frac) : Frac := ⟨-a.n, a.d⟩

def Frac.add (a b : Frac) : Frac := ⟨a.n * b.d + b.n * a.d, a.d * b.d⟩

def Frac.sub (a b : Frac) : Frac := a.add b.neg

def Frac.mul (a b : Frac) : Frac := ⟨a.n * b.n, a.d * b.d⟩

/-- Division by a non-zero fraction, keeping the denominator positive. -/
def Frac.div (a b : Frac) : Frac :=
  if b.n < 0 then ⟨-(a.n * b.d), a.d * (-b.n)⟩ else ⟨a.n * b.d, a.d * b.n⟩

/-- Value equality (cross-multiplication; denominators are positive). -/
def Frac.eqb (a b : Frac) : Bool := a.n * b.d = b.n * a.d

/-- Value order (cross-multiplication; denominators are positive). -/
def Frac.ltb (a b : Frac) : Bool := a.n * b.d < b.n * a.d

def Frac.isZero (a : Frac) : Bool := a.n = 0

def Frac.isPos (a : Frac) : Bool := 0 < a.n

/-- Truncation toward zero (`Int.tdiv` is T-division). -/
def Frac.trunc (a : Frac) : Int := Int.tdiv a.n a.d

/-- Ten to an integer power, as a fraction. -/
def pow10 (e : Int) : Frac :=
  if 0 ≤ e then ⟨(10 : Int) ^ e.toNat, 1⟩ else ⟨1, (10 : Int) ^ (-e).toNat⟩

/-- A JavaScript number: an exact rational, one of the two infinities, or
`NaN`.  `Number(token)` returning `NaN` is modelled by `Option.none` at the
parsing boundary, but arithmetic can produce `nan`.  Every numeric value in
the claims is a small integer, where IEEE-754 doubles are exact, so this
model agrees with the code on everything proved below. -/
inductive JSNum where
  | fin (q : Frac)
  | posInf
  | negInf
  | nan
deriving DecidableEq

/-! ## The numeral lexer: a model of JavaScript `Number(string)` -/

/-- Decimal digit value of a character. -/
def digVal (c : Char) : Nat := c.toNat - 48

/-- Value of a list of decimal digits. -/
def decDigits (l : List Char) : Nat := l.foldl (fun a c => a * 10 + digVal c) 0

/-- Hexadecimal digit value, if any. -/
def hexDigitVal (c : Char) : Option Nat :=
  if c.isDigit then some (digVal c)
  else if 'a' ≤ c ∧ c ≤ 'f' then some (c.toNat - 87)
  else if 'A' ≤ c ∧ c ≤ 'F' then some (c.toNat - 55)
  else none

/-- Value of a non-empty digit string in the given base (`none` when empty or
when some character is not a digit of that base). -/
def radixDigits (base : Nat) (l : List Char) : Option Nat :=
  match l with
  | [] => none
  | _ =>
    l.foldlM
      (fun a c =>
        match hexDigitVal c with
        | some v => if v < base then some (a * base + v) else none
        | none => none)
      0

/-- Parse an exponent tail (everything after `e`/`E`): optional sign, then at
least one decimal digit, consuming the whole input. -/
def expPart (l : List Char) : Option Int :=
  let signed : Bool × List Char :=
    match l with
    | '+' :: ds => (false, ds)
    | '-' :: ds => (true, ds)
    | ds => (false, ds)
  if signed.2.isEmpty then none
  else if signed.2.all Char.isDigit then
    some (if signed.1 then -(decDigits signed.2 : Int) else (decDigits signed.2 : Int))
  else none

/-- Apply an optional exponent suffix to a mantissa; the suffix must be empty
or a full exponent part. -/
def applyExp (mant : Frac) (l : List Char) : Option Frac :=
  match l with
  | [] => some mant
  | c :: rest =>
    if c = 'e' ∨ c = 'E' then (expPart rest).map (fun e => mant.mul (pow10 e))
    else none

/-- Parse an unsigned decimal literal: `digits [. digits] [exp]`, `. digits
[exp]` or `digits . digits [exp]`, consuming the whole input. -/
def parseDec (l : List Char) : Option Frac :=
  let intPart := l.takeWhile Char.isDigit
  let rest := l.dropWhile Char.isDigit
  match rest with
  | '.' :: rest2 =>
    let fracPart := rest2.takeWhile Char.isDigit
    let rest3 := rest2.dropWhile Char.isDigit
    if intPart.isEmpty && fracPart.isEmpty then none
    else
      applyExp
        ((Frac.int (decDigits intPart)).add
          ⟨(decDigits fracPart : Int), (10 : Int) ^ fracPart.length⟩)
        rest3
  | _ => if intPart.isEmpty then none else applyExp (Frac.int (decDigits intPart)) rest

/-- Parse a decimal literal or `Infinity` with an optional leading sign. -/
def parseSignedDec (l : List Char) : Option JSNum :=
  let signed : Bool × List Char :=
    match l with
    | '+' :: r => (false, r)
    | '-' :: r => (true, r)
    | r => (false, r)
  if signed.2 = "Infinity".data then
    some (if signed.1 then JSNum.negInf else JSNum.posInf)
  else
    (parseDec signed.2).map (fun q => JSNum.fin (if signed.1 then q.neg else q))

/-- Strip leading and trailing whitespace (JS `ToNumber` trims the string
grammar's whitespace; `String.trim` of the standard library is not used
because it does not reduce in the kernel). -/
def trimChars (l : List Char) : List Char :=
  ((l.dropWhile Char.isWhitespace).reverse.dropWhile Char.isWhitespace).reverse

/-- Model of JavaScript `Number(s)` restricted to non-`NaN` results:
whitespace is trimmed, the empty string is `0`, `0x`/`0o`/`0b` radix literals
are unsigned, and otherwise an optionally signed decimal literal or
`Infinity` is accepted.  `none` models `NaN`. -/
def jsNumber (s : String) : Option JSNum :=
  match trimChars s.data with
  | [] => some (JSNum.fin (Frac.int 0))
  | '0' :: c :: rest =>
    if c = 'x' ∨ c = 'X' then (radixDigits 16 rest).map (fun k => JSNum.fin (Frac.int k))
    else if c = 'o' ∨ c = 'O' then (radixDigits 8 rest).map (fun k => JSNum.fin (Frac.int k))
    else if c = 'b' ∨ c = 'B' then (radixDigits 2 rest).map (fun k => JSNum.fin (Frac.int k))
    else parseSignedDec ('0' :: c :: rest)
  | l => parseSignedDec l

/-! ## Stack values and the bounded stack (`src/stack.ts`) -/

/-- The `StackValue` union of `src/word.ts`: number, string, boolean, object
(an opaque reference, modelled by an identifier), `null` or `undefined`. -/
inductive StackValue where
  | num (n : JSNum)
  | str (s : String)
  | boolean (b : Bool)
  | obj (id : Nat)
  | null
  | undef
deriving DecidableEq

/-- The errors of `src/errors.ts`: `REIError` subclasses carry a message, a
machine-readable `type` tag and an optional context record; a bare JS
`Error` (as thrown by `Dictionary`) carries only a message.
`hostStackOverflow` models exhaustion of the host call stack by unbounded
recursion (a JS `RangeError`, not part of the REI error taxonomy). -/
inductive JSError where
  | rei (message : String) (tag : String) (context : Option (List (String × String)))
  | plain (message : String)
  | hostStackOverflow
deriving DecidableEq

/-- The `StackOverflowError` of `src/errors.ts`. -/
def stackOverflowError : JSError := .rei "Stack overflow" "STACK_OVERFLOW" none

/-- The `StackUnderflowError` of `src/errors.ts`. -/
def stackUnderflowError : JSError := .rei "Stack underflow" "STACK_UNDERFLOW" none

/-- The `WordNotFoundError` of `src/errors.ts`, with its `{ word: name }`
context record. -/
def wordNotFoundError (name : String) : JSError :=
  .rei ("Word not found: " ++ name) "WORD_NOT_FOUND" (some [("word", name)])

/-- The bounded stack of `src/stack.ts`.  The JS class stores its items in an
array with the top at the end; we store the top at the head and let
`snapshot` present the bottom-to-top order, which is observationally the
same. -/
structure Stack where
  items : List StackValue
  maxDepth : Nat
deriving DecidableEq

/-- `new Stack(maxDepth)`. -/
def Stack.new (maxDepth : Nat) : Stack := { items := [], maxDepth := maxDepth }

/-- `Stack.push`: throws `StackOverflowError` when the stack already holds
`maxDepth` items (the source checks `items.length >= maxDepth`), otherwise
appends at the top. -/
def Stack.push (s : Stack) (v : StackValue) : Except JSError Stack :=
  if s.maxDepth ≤ s.items.length then .error stackOverflowError
  else .ok { s with items := v :: s.items }

/-- `Stack.pop`: throws `StackUnderflowError` on an empty stack, otherwise
removes and returns the top value. -/
def Stack.pop (s : Stack) : Except JSError (StackValue × Stack) :=
  match s.items with
  | [] => .error stackUnderflowError
  | v :: rest => .ok (v, { s with items := rest })

/-- `Stack.peek`: throws `StackUnderflowError` on an empty stack, otherwise
returns the top value without removing it. -/
def Stack.peek (s : Stack) : Except JSError StackValue :=
  match s.items with
  | [] => .error stackUnderflowError
  | v :: _ => .ok v

/-- `Stack.depth`: the current number of items. -/
def Stack.depth (s : Stack) : Nat := s.items.length

/-- `Stack.clear`: removes all items. -/
def Stack.clear (s : Stack) : Stack := { s with items := [] }

/-- `Stack.snapshot`: an independent copy of the contents, bottom to top. -/
def Stack.snapshot (s : Stack) : List StackValue := s.items.reverse

/-! ## Words (`src/word.ts`) and the dictionary (`src/dictionary.ts`) -/

/-- The `WordCategory` union of `src/dictionary.ts`. -/
inductive Category where
  | CORE
  | STANDARD
  | USER
deriving DecidableEq

/-- The native operations used by the CORE word bodies that `bootstrapVM`
installs (`src/core/arithmetic.ts`, `src/core/stack-ops.ts`,
`src/core/strings.ts`, `src/core/console.ts`).  `domOps` is the empty list
outside a browser, so the DOM words are not part of the bootstrapped set. -/
inductive NativeOp where
  | add
  | sub
  | mul
  | div
  | mod
  | eq
  | lt
  | gt
  | lte
  | gte
  | dup
  | drp
  | swap
  | over
  | rot
  | twoDup
  | twoDrop
  | twoSwap
  | concat
  | strLength
  | substring
  | toStr
  | print
  | emit
deriving DecidableEq

/-- A `WordBody`: a native function over the VM, or a compiled array of
tokens. -/
inductive WordBody where
  | native (op : NativeOp)
  | compiled (tokens : List String)
deriving DecidableEq

mutual
/-- A `Word` of `src/word.ts`: name, stack-effect documentation, body,
`immediate` flag, `protected` flag (field `prot` here, `protected` being a
Lean keyword), category and metadata. -/
inductive Word where
  | mk (name : String) (stackEffect : String) (body : WordBody)
      (immediate : Bool) (prot : Bool) (category : Category)
      (metadata : WordMetadata)

/-- `WordMetadata`: definition timestamp, usage counter, the optional
`previousDefinitions` array, and optional documentation. -/
inductive WordMetadata where
  | mk (defined : Nat) (usageCount : Nat)
      (previousDefinitions : PrevDefs) (documentation : Option String)

/-- The optional `previousDefinitions` field: absent (`undefined` in JS) or
a list of archived definitions. -/
inductive PrevDefs where
  | undef
  | list (l : PrevDefList)

/-- A list of `{ timestamp, definition }` records. -/
inductive PrevDefList where
  | nil
  | cons (timestamp : Nat) (defn : Word) (rest : PrevDefList)
end

def Word.name : Word → String
  | .mk n _ _ _ _ _ _ => n

def Word.stackEffect : Word → String
  | .mk _ se _ _ _ _ _ => se

def Word.body : Word → WordBody
  | .mk _ _ b _ _ _ _ => b

def Word.immediate : Word → Bool
  | .mk _ _ _ i _ _ _ => i

def Word.prot : Word → Bool
  | .mk _ _ _ _ p _ _ => p

def Word.category : Word → Category
  | .mk _ _ _ _ _ c _ => c

def Word.metadata : Word → WordMetadata
  | .mk _ _ _ _ _ _ m => m

/-- Append an archived definition at the end of a `previousDefinitions`
list (JS `Array.push`). -/
def PrevDefList.append : PrevDefList → Nat → Word → PrevDefList
  | .nil, t, w => .cons t w .nil
  | .cons t0 w0 rest, t, w => .cons t0 w0 (rest.append t w)

/-- A `Partial<Word>` as accepted by `Dictionary.define`: every field
optional. -/
structure PartialWord where
  stackEffect : Option String
  body : Option WordBody
  immediate : Option Bool
  prot : Option Bool
  category : Option Category
  metadata : Option WordMetadata

/-- The insertion-ordered `Map` backing the dictionary, as an association
list.  `Map.get`. -/
def mapGet (m : List (String × Word)) (k : String) : Option Word :=
  match m with
  | [] => none
  | (k0, v) :: rest => if k0 = k then some v else mapGet rest k

/-- `Map.set`: replace in place when the key exists, append otherwise. -/
def mapSet (m : List (String × Word)) (k : String) (v : Word) : List (String × Word) :=
  match m with
  | [] => [(k, v)]
  | (k0, v0) :: rest => if k0 = k then (k, v) :: rest else (k0, v0) :: mapSet rest k v

/-- `Map.delete`. -/
def mapDelete (m : List (String × Word)) (k : String) : List (String × Word) :=
  match m with
  | [] => []
  | (k0, v0) :: rest => if k0 = k then rest else (k0, v0) :: mapDelete rest k

/-- Remove the first occurrence of a name (`indexOf` + `splice`; no change
when absent). -/
def removeFirst : List String → String → List String
  | [], _ => []
  | x :: xs, n => if x = n then xs else x :: removeFirst xs n

/-- The dictionary of `src/dictionary.ts`: a name-keyed map plus the
insertion-ordered `definitionOrder` list. -/
structure Dictionary where
  words : List (String × Word)
  definitionOrder : List String

/-- `new Dictionary()`. -/
def Dictionary.new : Dictionary := { words := [], definitionOrder := [] }

/-- `Dictionary.find`: the word, or `null`. -/
def Dictionary.find (d : Dictionary) (name : String) : Option Word :=
  mapGet d.words name

/-- The complete word `Dictionary.define` builds from its `Partial<Word>`
argument before the redefinition-archiving step, with the source's defaults
(`now` models the `new Date()` in the default metadata). -/
def completeWord (now : Nat) (name : String) (w : PartialWord) : Word :=
  .mk name (w.stackEffect.getD "( -- )") (w.body.getD (.compiled []))
    (w.immediate.getD false) (w.prot.getD false) (w.category.getD .USER)
    (w.metadata.getD (.mk now 0 .undef none))

/-- Archive a superseded definition into a metadata value: initialise
`previousDefinitions` to `[]` when absent, then push `{ timestamp: now,
definition: existing }`. -/
def archiveInto (md : WordMetadata) (now : Nat) (existing : Word) : WordMetadata :=
  match md with
  | .mk df uc prev doc =>
    let l := match prev with
      | .undef => PrevDefList.nil
      | .list l => l
    .mk df uc (.list (l.append now existing)) doc

/-- The complete word with the superseded definition archived into its
metadata (the redefinition path of `define`). -/
def archiveWord (cw : Word) (now : Nat) (ex : Word) : Word :=
  .mk cw.name cw.stackEffect cw.body cw.immediate cw.prot cw.category
    (archiveInto cw.metadata now ex)

/-- `Dictionary.define`: throws on a protected existing word; archives a
superseded unprotected definition into the new word's metadata; appends a
fresh name to `definitionOrder`. -/
def Dictionary.define (d : Dictionary) (now : Nat) (name : String) (w : PartialWord) :
    Except JSError Dictionary :=
  let existing := mapGet d.words name
  if (existing.map Word.prot).getD false then
    .error (.plain ("Cannot redefine protected word: " ++ name))
  else
    let cw := completeWord now name w
    match existing with
    | some ex =>
      .ok { words := mapSet d.words name (archiveWord cw now ex),
            definitionOrder := d.definitionOrder }
    | none =>
      .ok { words := mapSet d.words name cw,
            definitionOrder := d.definitionOrder ++ [name] }

/-- `Dictionary.forget`: throws on an unknown or protected name, otherwise
removes the word from both the map and `definitionOrder`. -/
def Dictionary.forget (d : Dictionary) (name : String) : Except JSError Dictionary :=
  match mapGet d.words name with
  | none => .error (.plain ("Cannot forget unknown word: " ++ name))
  | some w =>
    if w.prot then .error (.plain ("Cannot forget protected word: " ++ name))
    else
      .ok { words := mapDelete d.words name,
            definitionOrder := removeFirst d.definitionOrder name }

/-- `Dictionary.list`: names in definition order, optionally filtered by
category. -/
def Dictionary.list (d : Dictionary) (filter : Option Category) : List String :=
  match filter with
  | none => d.definitionOrder
  | some cat =>
    d.definitionOrder.filter (fun n =>
      match mapGet d.words n with
      | some w => w.category = cat
      | none => false)

/-- Well-formedness of a dictionary, maintained by its operations: no
duplicate names in either structure, the map keys and `definitionOrder`
carry the same names, and each stored word's `name` field is its key. -/
def Dictionary.WF (d : Dictionary) : Prop :=
  d.definitionOrder.Nodup ∧
  (d.words.map Prod.fst).Nodup ∧
  (∀ p ∈ d.words, p.1 ∈ d.definitionOrder) ∧
  (∀ n ∈ d.definitionOrder, (mapGet d.words n).isSome) ∧
  (∀ p ∈ d.words, (p.2 : Word).name = p.1)

/-! ## JavaScript value semantics used by the native word bodies -/

/-- JS `ToNumber` on stack values (the `as number` casts in the word bodies
are compile-time only; the runtime applies the usual coercions). -/
def jsToNumber : StackValue → JSNum
  | .num n => n
  | .str s => (jsNumber s).getD .nan
  | .boolean b => .fin (Frac.int (if b then 1 else 0))
  | .null => .fin (Frac.int 0)
  | .undef => .nan
  | .obj _ => .nan

/-- JS `ToString`.  Exact for strings, booleans, `null`, `undefined`,
infinities, `NaN` and integers; non-integer numbers get a simple exact
rendering (JS shortest-round-trip float formatting is not modelled — no
theorem below evaluates it). -/
def jsToString : StackValue → String
  | .str s => s
  | .boolean b => if b then "true" else "false"
  | .null => "null"
  | .undef => "undefined"
  | .obj _ => "[object Object]"
  | .num .posInf => "Infinity"
  | .num .negInf => "-Infinity"
  | .num .nan => "NaN"
  | .num (.fin q) =>
    if q.n.emod q.d = 0 then toString (Int.tdiv q.n q.d)
    else toString q.n ++ "/" ++ toString q.d

def JSNum.neg : JSNum → JSNum
  | .fin q => .fin q.neg
  | .posInf => .negInf
  | .negInf => .posInf
  | .nan => .nan

def JSNum.addN : JSNum → JSNum → JSNum
  | .nan, _ => .nan
  | _, .nan => .nan
  | .fin a, .fin b => .fin (a.add b)
  | .posInf, .negInf => .nan
  | .negInf, .posInf => .nan
  | .posInf, _ => .posInf
  | _, .posInf => .posInf
  | .negInf, _ => .negInf
  | _, .negInf => .negInf

def JSNum.mulN : JSNum → JSNum → JSNum
  | .nan, _ => .nan
  | _, .nan => .nan
  | .fin a, .fin b => .fin (a.mul b)
  | .posInf, .posInf => .posInf
  | .posInf, .negInf => .negInf
  | .negInf, .posInf => .negInf
  | .negInf, .negInf => .posInf
  | .posInf, .fin b => if b.isZero then .nan else if b.isPos then .posInf else .negInf
  | .fin a, .posInf => if a.isZero then .nan else if a.isPos then .posInf else .negInf
  | .negInf, .fin b => if b.isZero then .nan else if b.isPos then .negInf else .posInf
  | .fin a, .negInf => if a.isZero then .nan else if a.isPos then .negInf else .posInf

def JSNum.subN (a b : JSNum) : JSNum := a.addN b.neg

/-- JS division (note: the rational model has no `-0`, so the sign of an
infinite quotient by zero is that of the dividend; no theorem divides by
zero). -/
def JSNum.divN : JSNum → JSNum → JSNum
  | .nan, _ => .nan
  | _, .nan => .nan
  | .posInf, .posInf => .nan
  | .posInf, .negInf => .nan
  | .negInf, .posInf => .nan
  | .negInf, .negInf => .nan
  | .posInf, .fin b => if b.isPos ∨ b.isZero then .posInf else .negInf
  | .negInf, .fin b => if b.isPos ∨ b.isZero then .negInf else .posInf
  | .fin _, .posInf => .fin (Frac.int 0)
  | .fin _, .negInf => .fin (Frac.int 0)
  | .fin a, .fin b =>
    if b.isZero then
      if a.isZero then .nan else if a.isPos then .posInf else .negInf
    else .fin (a.div b)

/-- JS `%` (remainder with the dividend's sign). -/
def JSNum.modN : JSNum → JSNum → JSNum
  | .nan, _ => .nan
  | _, .nan => .nan
  | .posInf, _ => .nan
  | .negInf, _ => .nan
  | .fin a, .posInf => .fin a
  | .fin a, .negInf => .fin a
  | .fin a, .fin b =>
    if b.isZero then .nan else .fin (a.sub (b.mul (Frac.int (a.div b).trunc)))

/-- JS `+` on stack values: string concatenation when either operand is a
string, numeric addition otherwise. -/
def jsAdd (a b : StackValue) : StackValue :=
  match a, b with
  | .str _, _ => .str (jsToString a ++ jsToString b)
  | _, .str _ => .str (jsToString a ++ jsToString b)
  | _, _ => .num ((jsToNumber a).addN (jsToNumber b))

def jsSub (a b : StackValue) : StackValue := .num ((jsToNumber a).subN (jsToNumber b))
def jsMul (a b : StackValue) : StackValue := .num ((jsToNumber a).mulN (jsToNumber b))
def jsDiv (a b : StackValue) : StackValue := .num ((jsToNumber a).divN (jsToNumber b))
def jsMod (a b : StackValue) : StackValue := .num ((jsToNumber a).modN (jsToNumber b))

/-- Numeric equality (`NaN` unequal to everything, fractions compared by
value). -/
def JSNum.seqb : JSNum → JSNum → Bool
  | .nan, _ => false
  | _, .nan => false
  | .fin a, .fin b => a.eqb b
  | .posInf, .posInf => true
  | .negInf, .negInf => true
  | _, _ => false

/-- JS `===` (strict equality; `NaN` is not equal to itself; objects compare
by reference, modelled by their identifier). -/
def jsStrictEq : StackValue → StackValue → Bool
  | .num a, .num b => a.seqb b
  | .str a, .str b => a = b
  | .boolean a, .boolean b => a = b
  | .null, .null => true
  | .undef, .undef => true
  | .obj a, .obj b => a = b
  | _, _ => false

def JSNum.ltN : JSNum → JSNum → Bool
  | .nan, _ => false
  | _, .nan => false
  | .fin a, .fin b => a.ltb b
  | .posInf, _ => false
  | .negInf, .negInf => false
  | .negInf, _ => true
  | .fin _, .posInf => true
  | .fin _, .negInf => false

/-- Lexicographic comparison of character lists (JS string `<`). -/
def charListLt : List Char → List Char → Bool
  | [], [] => false
  | [], _ :: _ => true
  | _ :: _, [] => false
  | a :: as, b :: bs => if a < b then true else if b < a then false else charListLt as bs

/-- The JS abstract relational comparison `a < b`: string comparison when
both operands are strings, numeric otherwise; `none` models the `undefined`
result produced by `NaN`. -/
def jsCmpLess (a b : StackValue) : Option Bool :=
  match a, b with
  | .str s1, .str s2 => some (charListLt s1.data s2.data)
  | _, _ =>
    match jsToNumber a, jsToNumber b with
    | .nan, _ => none
    | _, .nan => none
    | x, y => some (x.ltN y)

def jsLT (a b : StackValue) : StackValue := .boolean ((jsCmpLess a b).getD false)
def jsGT (a b : StackValue) : StackValue := .boolean ((jsCmpLess b a).getD false)
def jsLTE (a b : StackValue) : StackValue :=
  .boolean (match jsCmpLess b a with
    | some r => !r
    | none => false)
def jsGTE (a b : StackValue) : StackValue :=
  .boolean (match jsCmpLess a b with
    | some r => !r
    | none => false)

/-- JS `String.prototype.substring(start, end)` on a value already clamped
to integers by the callers in the claims: arguments are truncated, clamped
to `[0, length]` and swapped when out of order. -/
def jsSubstring (s : String) (start finish : JSNum) : String :=
  let len := s.length
  let clamp : JSNum → Nat := fun n =>
    match n with
    | .fin q => Int.toNat (min (max q.trunc 0) (len : Int))
    | .posInf => len
    | .negInf => 0
    | .nan => 0
  let a := clamp start
  let b := clamp finish
  let lo := min a b
  let hi := max a b
  ((s.data.take hi).drop lo).asString

/-! ## Native word execution (`src/core/*.ts`) -/

/-- A stack computation that can throw, leaving the stack as mutated so
far. -/
def popE (s : Stack) : Except (Stack × JSError) (StackValue × Stack) :=
  match s.pop with
  | .ok r => .ok r
  | .error e => .error (s, e)

def pushE (v : StackValue) (s : Stack) : Except (Stack × JSError) Stack :=
  match s.push v with
  | .ok s2 => .ok s2
  | .error e => .error (s, e)

def peekE (s : Stack) : Except (Stack × JSError) StackValue :=
  match s.peek with
  | .ok v => .ok v
  | .error e => .error (s, e)

/-- Pop two operands and push the result (the shared shape of the binary
arithmetic and comparison bodies: `const b = pop(); const a = pop();
push(f(a, b))`). -/
def binOp (f : StackValue → StackValue → StackValue) (s0 : Stack) :
    Except (Stack × JSError) Stack := do
  let (b, s1) ← popE s0
  let (a, s2) ← popE s1
  pushE (f a b) s2

/-- The body of each native CORE word as a transformation of the data
stack, transcribed from `src/core/arithmetic.ts`, `stack-ops.ts`,
`strings.ts` and `console.ts` (the `console.log`/`stdout` side effects of
`.` and `EMIT` are outside the VM's state). -/
def nativeBody (op : NativeOp) (s0 : Stack) : Except (Stack × JSError) Stack :=
  match op with
  | .add => binOp jsAdd s0
  | .sub => binOp jsSub s0
  | .mul => binOp jsMul s0
  | .div => binOp jsDiv s0
  | .mod => binOp jsMod s0
  | .eq => binOp (fun a b => .boolean (jsStrictEq a b)) s0
  | .lt => binOp jsLT s0
  | .gt => binOp jsGT s0
  | .lte => binOp jsLTE s0
  | .gte => binOp jsGTE s0
  | .dup => do
    let v ← peekE s0
    pushE v s0
  | .drp => do
    let (_, s1) ← popE s0
    pure s1
  | .swap => do
    let (b, s1) ← popE s0
    let (a, s2) ← popE s1
    let s3 ← pushE b s2
    pushE a s3
  | .over => do
    let (b, s1) ← popE s0
    let a ← peekE s1
    let s2 ← pushE b s1
    pushE a s2
  | .rot => do
    let (c, s1) ← popE s0
    let (b, s2) ← popE s1
    let (a, s3) ← popE s2
    let s4 ← pushE b s3
    let s5 ← pushE c s4
    pushE a s5
  | .twoDup => do
    let (b, s1) ← popE s0
    let (a, s2) ← popE s1
    let s3 ← pushE a s2
    let s4 ← pushE b s3
    let s5 ← pushE a s4
    pushE b s5
  | .twoDrop => do
    let (_, s1) ← popE s0
    let (_, s2) ← popE s1
    pure s2
  | .twoSwap => do
    let (d, s1) ← popE s0
    let (c, s2) ← popE s1
    let (b, s3) ← popE s2
    let (a, s4) ← popE s3
    let s5 ← pushE c s4
    let s6 ← pushE d s5
    let s7 ← pushE a s6
    pushE b s7
  | .concat => do
    let (v2, s1) ← popE s0
    let (v1, s2) ← popE s1
    pushE (.str (jsToString v1 ++ jsToString v2)) s2
  | .strLength => do
    let (v, s1) ← popE s0
    pushE (.num (.fin (Frac.int ((jsToString v).length : Int)))) s1
  | .substring => do
    let (e, s1) ← popE s0
    let (st, s2) ← popE s1
    let (v, s3) ← popE s2
    pushE (.str (jsSubstring (jsToString v) (jsToNumber st) (jsToNumber e))) s3
  | .toStr => do
    let (v, s1) ← popE s0
    pushE (.str (jsToString v)) s1
  | .print => do
    let (_, s1) ← popE s0
    pure s1
  | .emit => do
    let (_, s1) ← popE s0
    pure s1

/-! ## The VM (`src/vm.ts`) -/

/-- `VMConfig`: optional stack depths. -/
structure VMConfig where
  stackDepth : Option Nat
  returnStackDepth : Option Nat
deriving DecidableEq

/-- The VM state: data stack, return stack, dictionary and the captured
configuration. -/
structure VM where
  dataStack : Stack
  returnStack : Stack
  dictionary : Dictionary
  config : VMConfig

/-- `new VM(config?)`: `config ?? {}` is captured; stacks get the configured
or default (256) depths; the dictionary starts empty. -/
def VM.new (config : Option VMConfig) : VM :=
  { dataStack := Stack.new ((config.bind VMConfig.stackDepth).getD 256)
    returnStack := Stack.new ((config.bind VMConfig.returnStackDepth).getD 256)
    dictionary := Dictionary.new
    config := config.getD { stackDepth := none, returnStackDepth := none } }

def VM.setData (vm : VM) (s : Stack) : VM := { vm with dataStack := s }

/-- Run a native body on the VM: only the data stack is read or written. -/
def execNative (op : NativeOp) (vm : VM) : VM × Option JSError :=
  match nativeBody op vm.dataStack with
  | .ok s => (vm.setData s, none)
  | .error (s, e) => (vm.setData s, some e)

/-- The per-token dispatch loop shared (verbatim in the source) by the
compiled-word branch of `execute` and by `run`: a token that lexes as a
numeral is pushed, any other token is resolved in the dictionary and its
body invoked (natively, or by recursing into its token sequence); an error
stops the loop and propagates, keeping the state mutated so far.

The `fuel` parameter bounds the interpreter, modelling the host call stack
that bounds the source's unbounded recursion; it decreases at every step,
so for every terminating execution some fuel reproduces the source's
behaviour exactly, and `hostStackOverflow` takes the place of the host's
`RangeError` on the executions the source cannot complete. -/
def execBody : Nat → VM → List String → VM × Option JSError
  | _, vm, [] => (vm, none)
  | 0, vm, _ :: _ => (vm, some .hostStackOverflow)
  | f + 1, vm, t :: ts =>
    match jsNumber t with
    | some n =>
      match vm.dataStack.push (.num n) with
      | .ok s => execBody f (vm.setData s) ts
      | .error e => (vm, some e)
    | none =>
      match vm.dictionary.find t with
      | none => (vm, some (wordNotFoundError t))
      | some w =>
        match w.body with
        | .native op =>
          match execNative op vm with
          | (vm2, none) => execBody f vm2 ts
          | r => r
        | .compiled inner =>
          match execBody f vm inner with
          | (vm2, none) => execBody f vm2 ts
          | r => r

/-- `VM.execute` on a `Word` argument (no dictionary lookup). -/
def executeW (fuel : Nat) (vm : VM) (w : Word) : VM × Option JSError :=
  match fuel with
  | 0 => (vm, some .hostStackOverflow)
  | f + 1 =>
    match w.body with
    | .native op => execNative op vm
    | .compiled toks => execBody f vm toks

/-- `VM.execute` on a name: dictionary lookup, then body dispatch. -/
def executeN (fuel : Nat) (vm : VM) (name : String) : VM × Option JSError :=
  match fuel with
  | 0 => (vm, some .hostStackOverflow)
  | f + 1 =>
    match vm.dictionary.find name with
    | none => (vm, some (wordNotFoundError name))
    | some w =>
      match w.body with
      | .native op => execNative op vm
      | .compiled toks => execBody f vm toks

/-- Split a character list at every whitespace character, producing the
(possibly empty) chunks between separators. -/
def splitWsAux : List Char → List Char → List String
  | [], acc => [acc.reverse.asString]
  | c :: rest, acc =>
    if c.isWhitespace then acc.reverse.asString :: splitWsAux rest []
    else splitWsAux rest (c :: acc)

/-- `VM.parse`: `code.trim().split(/\s+/)` with empty tokens filtered out.
Splitting at every whitespace character and dropping the empty chunks
yields the same token list as trimming and splitting on whitespace runs. -/
def parse (code : String) : List String :=
  (splitWsAux code.data []).filter (fun t => t ≠ "")

/-- `VM.run`: parse, then the same per-token dispatch as the compiled-body
interpreter. -/
def VM.run (fuel : Nat) (vm : VM) (code : String) : VM × Option JSError :=
  execBody fuel vm (parse code)

/-! ## The CORE word library and `bootstrapVM` (`src/core/`, `src/bootstrap.ts`) -/

/-- Build a protected CORE word (each CORE word is defined this way in the
source, with `metadata.defined = new Date()` at module load — the `now`
parameter — and `usageCount: 0`). -/
def coreWord (now : Nat) (name stackEffect : String) (op : NativeOp) (doc : String) : Word :=
  .mk name stackEffect (.native op) false true .CORE (.mk now 0 .undef (some doc))

/-- `CoreWords` as bootstrapped outside a browser: `stackOps ++
arithmeticOps ++ stringOps ++ consoleOps` (and `domOps = []`). -/
def coreWords (now : Nat) : List Word :=
  [ coreWord now "DUP" "( n -- n n )" .dup "Duplicate the top stack value"
  , coreWord now "DROP" "( n -- )" .drp "Remove the top stack value"
  , coreWord now "SWAP" "( a b -- b a )" .swap "Swap the top two stack values"
  , coreWord now "OVER" "( a b -- a b a )" .over "Copy the second stack value to the top"
  , coreWord now "ROT" "( a b c -- b c a )" .rot "Rotate the top three stack values"
  , coreWord now "2DUP" "( a b -- a b a b )" .twoDup "Duplicate the top two stack values"
  , coreWord now "2DROP" "( a b -- )" .twoDrop "Remove the top two stack values"
  , coreWord now "2SWAP" "( a b c d -- c d a b )" .twoSwap "Swap the top two pairs of stack values"
  , coreWord now "+" "( a b -- sum )" .add "Add two numbers"
  , coreWord now "-" "( a b -- difference )" .sub "Subtract b from a"
  , coreWord now "*" "( a b -- product )" .mul "Multiply two numbers"
  , coreWord now "/" "( a b -- quotient )" .div "Divide a by b"
  , coreWord now "MOD" "( a b -- remainder )" .mod "Calculate remainder of a divided by b"
  , coreWord now "=" "( a b -- bool )" .eq "Test if two values are equal"
  , coreWord now "<" "( a b -- bool )" .lt "Test if a is less than b"
  , coreWord now ">" "( a b -- bool )" .gt "Test if a is greater than b"
  , coreWord now "<=" "( a b -- bool )" .lte "Test if a is less than or equal to b"
  , coreWord now ">=" "( a b -- bool )" .gte "Test if a is greater than or equal to b"
  , coreWord now "CONCAT" "( str1 str2 -- str )" .concat "Concatenate two strings"
  , coreWord now "LENGTH" "( str -- n )" .strLength "Get string length"
  , coreWord now "SUBSTRING" "( str start end -- substr )" .substring
      "Extract substring from start to end"
  , coreWord now "TO-STRING" "( value -- str )" .toStr "Convert value to string"
  , coreWord now "." "( value -- ) [prints]" .print
      "Print top of stack with newline. Works with any type (numbers, strings, objects, etc.)"
  , coreWord now "EMIT" "( char-code -- ) [prints]" .emit
      "Print single character from character code" ]

/-- Every field of a complete word, as a `Partial<Word>` (a full `Word` is
what `bootstrapVM`, `clone` and the dictionary tests pass to `define`). -/
def wordToPartial (w : Word) : PartialWord :=
  { stackEffect := some w.stackEffect, body := some w.body,
    immediate := some w.immediate, prot := some w.prot,
    category := some w.category, metadata := some w.metadata }

/-- Define a word, keeping the dictionary unchanged if `define` throws
(used where the source's `define` call provably cannot throw: a fresh
dictionary and pairwise distinct names). -/
def defineD (d : Dictionary) (now : Nat) (name : String) (w : PartialWord) : Dictionary :=
  match d.define now name w with
  | .ok d2 => d2
  | .error _ => d

/-- `bootstrapVM(config?)`: a new VM with every CORE word defined via the
dictionary's `define` contract.  (`define` cannot throw here: the
dictionary starts empty and the CORE names are pairwise distinct.) -/
def bootstrapVM (now : Nat) (config : Option VMConfig) : VM :=
  let vm := VM.new config
  { vm with
    dictionary :=
      (coreWords now).foldl (fun d w => defineD d now w.name (wordToPartial w)) vm.dictionary }

/-! ## Serialisation, restoration and cloning (`src/vm.ts`) -/

/-- A `SerializedWord`: the `body` string is either the `'__NATIVE__'`
sentinel (`none` here) or `JSON.stringify` of the token array (`some`
here — `JSON` round-trips a string array losslessly). -/
structure SerializedWord where
  name : String
  stackEffect : String
  body : Option (List String)
  immediate : Bool
  metadata : WordMetadata

/-- The serialised `VMState`. -/
structure VMState where
  version : String
  timestamp : Nat
  stack : List StackValue
  dictionary : List SerializedWord
  config : VMConfig

/-- How `serialize` renders one USER word. -/
def serializeWord (w : Word) : SerializedWord :=
  { name := w.name, stackEffect := w.stackEffect,
    body := match w.body with
      | .native _ => none
      | .compiled toks => some toks,
    immediate := w.immediate, metadata := w.metadata }

/-- A placeholder for the non-null assertion `this.dictionary.find(name)!`
in `serialize` (never reached on a well-formed dictionary). -/
def defaultWord : Word := .mk "" "( -- )" (.compiled []) false false .USER (.mk 0 0 .undef none)

/-- `VM.serialize`: version tag, timestamp, bottom-to-top data-stack copy,
and every USER word in `list('USER')` order. -/
def VM.serialize (vm : VM) (now : Nat) : VMState :=
  { version := "0.1.0", timestamp := now,
    stack := vm.dataStack.snapshot,
    dictionary :=
      (vm.dictionary.list (some .USER)).map (fun n =>
        serializeWord ((vm.dictionary.find n).getD defaultWord)),
    config := vm.config }

/-- Push a list of values in order (the restore loops of `deserialize` and
`clone`); an overflow stops the loop with the stack as filled so far. -/
def pushAll (s : Stack) : List StackValue → Except (Stack × JSError) Stack
  | [] => .ok s
  | v :: vs =>
    match s.push v with
    | .ok s2 => pushAll s2 vs
    | .error e => .error (s, e)

/-- The word-restore loop of `deserialize`: skip `'__NATIVE__'` bodies,
define the rest as unprotected USER words; a `define` error stops the loop
with the dictionary as restored so far. -/
def restoreWords (d : Dictionary) (now : Nat) :
    List SerializedWord → Except (Dictionary × JSError) Dictionary
  | [] => .ok d
  | sw :: rest =>
    match sw.body with
    | none => restoreWords d now rest
    | some toks =>
      match d.define now sw.name
          { stackEffect := some sw.stackEffect, body := some (.compiled toks),
            immediate := some sw.immediate, prot := some false,
            category := some .USER, metadata := some sw.metadata } with
      | .ok d2 => restoreWords d2 now rest
      | .error e => .error (d, e)

/-- `VM.deserialize`: clear the data stack, repush the serialised contents,
then restore the USER words. -/
def VM.deserialize (vm : VM) (st : VMState) (now : Nat) : VM × Option JSError :=
  match pushAll vm.dataStack.clear st.stack with
  | .error (s, e) => (vm.setData s, some e)
  | .ok s =>
    let vm1 := vm.setData s
    match restoreWords vm1.dictionary now st.dictionary with
    | .error (d, e) => ({ vm1 with dictionary := d }, some e)
    | .ok d => ({ vm1 with dictionary := d }, none)

/-- The dictionary-copy loop of `clone`: re-`define` every entry of the
source dictionary, in `list()` order, onto the fresh dictionary.  A name
the source map does not contain is skipped (the source's `find(name)!`
assertion); a `define` error stops the loop. -/
def copyWords (dNew : Dictionary) (now : Nat) (src : Dictionary) :
    List String → Except (Dictionary × JSError) Dictionary
  | [] => .ok dNew
  | n :: rest =>
    match src.find n with
    | none => copyWords dNew now src rest
    | some w =>
      match dNew.define now n (wordToPartial w) with
      | .ok d2 => copyWords d2 now src rest
      | .error e => .error (dNew, e)

/-- `VM.clone`: a new VM with the same configuration, every dictionary
entry re-defined (CORE words included), and both stacks copied. -/
def VM.clone (vm : VM) (now : Nat) : VM × Option JSError :=
  let newVM := VM.new (some vm.config)
  match copyWords newVM.dictionary now vm.dictionary (vm.dictionary.list none) with
  | .error (d, e) => ({ newVM with dictionary := d }, some e)
  | .ok d =>
    let vm1 := { newVM with dictionary := d }
    match pushAll vm1.dataStack vm.dataStack.snapshot with
    | .error (s, e) => (vm1.setData s, some e)
    | .ok s =>
      let vm2 := vm1.setData s
      match pushAll vm2.returnStack vm.returnStack.snapshot with
      | .error (s2, e) => ({ vm2 with returnStack := s2 }, some e)
      | .ok s2 => ({ vm2 with returnStack := s2 }, none)

/-! ## A state-threaded reading of `serialize` (for its frame property)

`serialize` only calls `list`, `find` and `snapshot`.  To state that it
mutates nothing we thread the receiver through each method call exactly as
the source performs them and observe that the final state is the
receiver. -/

/-- `snapshot()` as a method call: returns the copy and the receiver
(the method body contains no assignment). -/
def Stack.snapshotS (s : Stack) : List StackValue × Stack := (s.snapshot, s)

/-- `list(filter)` as a method call. -/
def Dictionary.listS (d : Dictionary) (filter : Option Category) :
    List String × Dictionary := (d.list filter, d)

/-- `find(name)` as a method call. -/
def Dictionary.findS (d : Dictionary) (name : String) : Option Word × Dictionary :=
  (d.find name, d)

/-- The `userWords.map(...)` loop of `serialize`, threading the dictionary
through each `find`. -/
def serializeLoop (d : Dictionary) : List String → List SerializedWord × Dictionary
  | [] => ([], d)
  | n :: rest =>
    let (w, d1) := d.findS n
    let (sws, d2) := serializeLoop d1 rest
    (serializeWord (w.getD defaultWord) :: sws, d2)

/-- `VM.serialize` with every method call threaded through the state it
acts on, returning the VM as it is left after the call. -/
def VM.serializeS (vm : VM) (now : Nat) : VMState × VM :=
  let (userNames, d1) := vm.dictionary.listS (some .USER)
  let (sws, d2) := serializeLoop d1 userNames
  let (snap, ds) := vm.dataStack.snapshotS
  ({ version := "0.1.0", timestamp := now, stack := snap, dictionary := sws,
     config := vm.config },
   { vm with dictionary := d2, dataStack := ds })

/-! ## Auxiliary definitions used by the theorem statements -/

/-- Pop `n` times, returning the popped values in pop order (the state as
mutated so far accompanies an underflow). -/
def popSeq : Stack → Nat → Except (Stack × JSError) (List StackValue × Stack)
  | s, 0 => .ok ([], s)
  | s, k + 1 =>
    match s.pop with
    | .error e => .error (s, e)
    | .ok (v, s2) =>
      match popSeq s2 k with
      | .ok (vs, s3) => .ok (v :: vs, s3)
      | .error r => .error r

/-- Metadata accessor: the `previousDefinitions` field. -/
def WordMetadata.prevDefs : WordMetadata → PrevDefs
  | .mk _ _ p _ => p

/-- An absent `previousDefinitions` field read as the empty list (the
`if (!...) ... = []` initialisation in `define`). -/
def PrevDefs.orNil : PrevDefs → PrevDefList
  | .undef => .nil
  | .list l => l

/-- One attempted mutation of a dictionary entry; a failed attempt leaves
the dictionary as it was (the exception propagates to the caller). -/
inductive DictAttempt where
  | defineA (now : Nat) (w : PartialWord)
  | forgetA

/-- Apply an attempted mutation, keeping the state on failure. -/
def applyAttempt (name : String) (d : Dictionary) : DictAttempt → Dictionary
  | .defineA now w =>
    match d.define now name w with
    | .ok d2 => d2
    | .error _ => d
  | .forgetA =>
    match d.forget name with
    | .ok d2 => d2
    | .error _ => d

/-- Dictionaries that agree on every name that does not lex as a numeral
(they may differ arbitrarily on numeral names). -/
def DictAgree (d1 d2 : Dictionary) : Prop :=
  ∀ n, jsNumber n = none → d1.find n = d2.find n

/-- Does an error value carry a machine-readable kind tag? -/
def errorHasKindTag : JSError → Bool
  | .rei _ _ _ => true
  | .plain _ => false
  | .hostStackOverflow => false

/-- Well-formedness of a VM: a well-formed dictionary, stacks within their
bounds, and stack bounds matching the captured configuration. -/
def VM.WF (vm : VM) : Prop :=
  vm.dictionary.WF ∧
  vm.dataStack.items.length ≤ vm.dataStack.maxDepth ∧
  vm.dataStack.maxDepth = vm.config.stackDepth.getD 256 ∧
  vm.returnStack.items.length ≤ vm.returnStack.maxDepth ∧
  vm.returnStack.maxDepth = vm.config.returnStackDepth.getD 256

/-! ## Lemmas about the map and the stack -/

theorem mapGet_mapSet_self (m : List (String × Word)) (k : String) (v : Word) :
    mapGet (mapSet m k v) k = some v := by
  induction m with
  | nil => simp [mapSet, mapGet]
  | cons p rest ih =>
    by_cases h : p.1 = k
    · simp [mapSet, mapGet, h]
    · simp [mapSet, mapGet, h, ih]

theorem mapGet_mapSet_ne (m : List (String × Word)) (k k2 : String) (v : Word)
    (h : k2 ≠ k) : mapGet (mapSet m k v) k2 = mapGet m k2 := by
  have hk : ¬(k = k2) := fun hh => h hh.symm
  induction m with
  | nil => simp [mapSet, mapGet, hk]
  | cons p rest ih =>
    by_cases hp : p.1 = k
    · subst hp
      simp [mapSet, mapGet, hk]
    · simp only [mapSet, if_neg hp]
      by_cases hp2 : p.1 = k2
      · simp [mapGet, hp2]
      · simp [mapGet, hp2, ih]

theorem mapGet_mem {m : List (String × Word)} {k : String} {w : Word}
    (h : mapGet m k = some w) : (k, w) ∈ m := by
  induction m with
  | nil => simp [mapGet] at h
  | cons p rest ih =>
    by_cases hp : p.1 = k
    · simp only [mapGet, if_pos hp] at h
      obtain ⟨a, b⟩ := p
      cases h
      cases hp
      exact List.mem_cons_self _ _
    · simp only [mapGet, if_neg hp] at h
      exact List.mem_cons_of_mem _ (ih h)

theorem pushAll_ok (vs : List StackValue) (s : Stack)
    (h : s.items.length + vs.length ≤ s.maxDepth) :
    pushAll s vs = .ok ⟨vs.reverse ++ s.items, s.maxDepth⟩ := by
  induction vs generalizing s with
  | nil =>
    cases s
    simp [pushAll]
  | cons v vs ih =>
    simp only [List.length_cons] at h
    have hlt : s.items.length < s.maxDepth := by omega
    have hpush : s.push v = .ok { s with items := v :: s.items } := by
      simp [Stack.push, Nat.not_le.mpr hlt]
    simp only [pushAll, hpush]
    have h2 := ih { s with items := v :: s.items } (by simp only [List.length_cons]; omega)
    rw [h2]
    simp

theorem popSeq_all (items : List StackValue) (maxD : Nat) :
    popSeq ⟨items, maxD⟩ items.length = .ok (items, ⟨[], maxD⟩) := by
  induction items with
  | nil => simp [popSeq]
  | cons v rest ih => simp [popSeq, Stack.pop, ih]

/-! ## Lemmas about the dictionary operations -/

theorem define_fresh (d : Dictionary) (now : Nat) (name : String) (w : PartialWord)
    (h : d.find name = none) :
    d.define now name w =
      .ok { words := mapSet d.words name (completeWord now name w),
            definitionOrder := d.definitionOrder ++ [name] } := by
  simp only [Dictionary.find] at h
  simp [Dictionary.define, h]

theorem define_existing (d : Dictionary) (now : Nat) {name : String} (w : PartialWord)
    {ex : Word} (h : d.find name = some ex) (hprot : ex.prot = false) :
    d.define now name w =
      .ok { words := mapSet d.words name (archiveWord (completeWord now name w) now ex),
            definitionOrder := d.definitionOrder } := by
  simp only [Dictionary.find] at h
  simp [Dictionary.define, h, hprot]

theorem define_protected (d : Dictionary) (now : Nat) {name : String} (w : PartialWord)
    {ex : Word} (h : d.find name = some ex) (hprot : ex.prot = true) :
    d.define now name w = .error (.plain ("Cannot redefine protected word: " ++ name)) := by
  simp only [Dictionary.find] at h
  simp [Dictionary.define, h, hprot]

theorem forget_unknown (d : Dictionary) {name : String} (h : d.find name = none) :
    d.forget name = .error (.plain ("Cannot forget unknown word: " ++ name)) := by
  simp only [Dictionary.find] at h
  simp [Dictionary.forget, h]

theorem forget_protected (d : Dictionary) {name : String} {ex : Word}
    (h : d.find name = some ex) (hprot : ex.prot = true) :
    d.forget name = .error (.plain ("Cannot forget protected word: " ++ name)) := by
  simp only [Dictionary.find] at h
  simp [Dictionary.forget, h, hprot]

/-! ## The claims -/

/-- **C3** — Stack LIFO and bounds contract: pushing `n ≤ maxDepth` values
onto an empty stack of capacity `maxDepth` succeeds, gives `depth() = n`,
and popping `n` times returns the values in exact reverse push order;
`push` fails with `StackOverflow` exactly when `depth() = maxDepth` before
the push (for a stack within its bound) and otherwise increases `depth()`
by exactly one; `pop` fails with `StackUnderflow` exactly when
`depth() = 0` and otherwise decreases `depth()` by exactly one. -/
theorem C3_stack_lifo_and_bounds :
    (∀ (maxD : Nat) (vs : List StackValue), vs.length ≤ maxD →
      ∃ s : Stack, pushAll (Stack.new maxD) vs = .ok s ∧ s.depth = vs.length ∧
        popSeq s vs.length = .ok (vs.reverse, Stack.new maxD)) ∧
    (∀ (s : Stack) (v : StackValue), s.items.length ≤ s.maxDepth →
      (s.depth = s.maxDepth → s.push v = .error stackOverflowError) ∧
      (s.depth ≠ s.maxDepth → ∃ s2, s.push v = .ok s2 ∧ s2.depth = s.depth + 1)) ∧
    (∀ s : Stack,
      (s.depth = 0 → s.pop = .error stackUnderflowError) ∧
      (s.depth ≠ 0 → ∃ v s2, s.pop = .ok (v, s2) ∧ s2.depth = s.depth - 1)) := by
  refine ⟨?_, ?_, ?_⟩
  · intro maxD vs hlen
    have h := pushAll_ok vs (Stack.new maxD) (by simpa [Stack.new] using hlen)
    refine ⟨⟨vs.reverse ++ [], maxD⟩, by simpa [Stack.new] using h, ?_, ?_⟩
    · simp [Stack.depth]
    · have := popSeq_all vs.reverse maxD
      rw [List.length_reverse] at this
      simpa [Stack.new] using this
  · intro s v hle
    constructor
    · intro hfull
      simp [Stack.push, stackOverflowError, Stack.depth] at hfull ⊢
      omega
    · intro hne
      have hlt : s.items.length < s.maxDepth := by
        simp only [Stack.depth] at hne
        omega
      exact ⟨{ s with items := v :: s.items },
        by simp [Stack.push, Nat.not_le.mpr hlt], by simp [Stack.depth]⟩
  · intro s
    constructor
    · intro hz
      simp only [Stack.depth, List.length_eq_zero] at hz
      simp [Stack.pop, hz, stackUnderflowError]
    · intro hnz
      match hs : s.items with
      | [] => simp [Stack.depth, hs] at hnz
      | v :: rest =>
        exact ⟨v, { s with items := rest }, by simp [Stack.pop, hs],
          by simp [Stack.depth, hs]⟩

/-- Witness for C3 at concrete inputs: a two-slot stack filled with two
values pops them in reverse order; a full stack overflows on push; a
non-full stack's push adds one to the depth; an empty stack underflows on
pop; a singleton stack's pop returns its element. -/
theorem C3_stack_lifo_and_bounds_witness :
    pushAll (Stack.new 2) [.null, .boolean true] = .ok ⟨[.boolean true, .null], 2⟩ ∧
    Stack.depth ⟨[.boolean true, .null], 2⟩ = 2 ∧
    popSeq ⟨[.boolean true, .null], 2⟩ 2 = .ok ([.boolean true, .null], Stack.new 2) ∧
    Stack.push ⟨[.null, .undef], 2⟩ .null = .error stackOverflowError ∧
    Stack.push ⟨[.null], 2⟩ .undef = .ok ⟨[.undef, .null], 2⟩ ∧
    Stack.pop (Stack.new 2) = .error stackUnderflowError ∧
    Stack.pop ⟨[.null], 2⟩ = .ok (.null, ⟨[], 2⟩) := by
  obtain ⟨s, h1, h2, h3⟩ := C3_stack_lifo_and_bounds.1 2 [.null, .boolean true] (by decide)
  have hF : pushAll (Stack.new 2) [.null, .boolean true] =
      .ok ⟨[.boolean true, .null], 2⟩ := rfl
  rw [hF] at h1
  injection h1 with hs
  subst hs
  exact ⟨hF, h2, h3,
    (C3_stack_lifo_and_bounds.2.1 ⟨[.null, .undef], 2⟩ .null (by decide)).1 (by decide),
    rfl,
    (C3_stack_lifo_and_bounds.2.2 (Stack.new 2)).1 (by decide),
    rfl⟩

theorem archiveWord_prevDefs (cw : Word) (now : Nat) (ex : Word) :
    (archiveWord cw now ex).metadata.prevDefs =
      .list (cw.metadata.prevDefs.orNil.append now ex) := by
  cases cw with
  | mk n se b i p c md => cases md; rfl

/-- **C5** — Dictionary redefinition semantics: redefining an existing
unprotected name replaces the mapping entry, leaves `definitionOrder`
unchanged (hence the name's position and the list's length, with no
duplicates however often the name is redefined), and the new word's
`metadata.previousDefinitions` is the incoming metadata's list (initialised
if absent) with the full superseded word appended under the redefinition
timestamp; defining a fresh name appends it to `definitionOrder`. -/
theorem C5_dictionary_redefinition :
    (∀ (d : Dictionary) (now : Nat) (name : String) (w : PartialWord) (ex : Word),
      d.find name = some ex → ex.prot = false →
      ∃ d2, d.define now name w = .ok d2 ∧
        d2.definitionOrder = d.definitionOrder ∧
        d2.find name = some (archiveWord (completeWord now name w) now ex) ∧
        (archiveWord (completeWord now name w) now ex).metadata.prevDefs =
          .list ((completeWord now name w).metadata.prevDefs.orNil.append now ex) ∧
        (∀ n, n ≠ name → d2.find n = d.find n)) ∧
    (∀ (d : Dictionary) (now : Nat) (name : String) (w : PartialWord),
      d.find name = none →
      ∃ d2, d.define now name w = .ok d2 ∧
        d2.definitionOrder = d.definitionOrder ++ [name] ∧
        d2.find name = some (completeWord now name w) ∧
        (∀ n, n ≠ name → d2.find n = d.find n)) := by
  constructor
  · intro d now name w ex h hprot
    refine ⟨_, define_existing d now w h hprot, rfl, ?_, ?_, ?_⟩
    · exact mapGet_mapSet_self d.words name _
    · exact archiveWord_prevDefs _ now ex
    · intro n hn
      exact mapGet_mapSet_ne d.words name n _ hn
  · intro d now name w h
    refine ⟨_, define_fresh d now name w h, rfl, ?_, ?_⟩
    · exact mapGet_mapSet_self d.words name _
    · intro n hn
      exact mapGet_mapSet_ne d.words name n _ hn

/-- A concrete unprotected USER word (for witnesses). -/
def wEx : Word := .mk "W" "( -- )" (.compiled ["1"]) false false .USER (.mk 3 0 .undef none)

/-- A concrete protected CORE word (for witnesses). -/
def wProtEx : Word := .mk "P" "( -- )" (.compiled []) false true .CORE (.mk 3 0 .undef none)

/-- A concrete `Partial<Word>` (for witnesses). -/
def pwEx : PartialWord :=
  { stackEffect := some "( n -- )", body := some (.compiled ["2"]),
    immediate := some false, prot := some false, category := some .USER, metadata := none }

/-- Witness for C5: redefining `W` in a one-word dictionary keeps the order
and archives the old word; defining fresh `V` appends it. -/
theorem C5_dictionary_redefinition_witness :
    Dictionary.define ⟨[("W", wEx)], ["W"]⟩ 5 "W" pwEx =
      .ok ⟨[("W", archiveWord (completeWord 5 "W" pwEx) 5 wEx)], ["W"]⟩ ∧
    (archiveWord (completeWord 5 "W" pwEx) 5 wEx).metadata.prevDefs =
      .list ((completeWord 5 "W" pwEx).metadata.prevDefs.orNil.append 5 wEx) ∧
    Dictionary.define ⟨[("W", wEx)], ["W"]⟩ 6 "V" pwEx =
      .ok ⟨[("W", wEx), ("V", completeWord 6 "V" pwEx)], ["W", "V"]⟩ := by
  obtain ⟨d2, h1, h2, h3, h4, h5⟩ :=
    C5_dictionary_redefinition.1 ⟨[("W", wEx)], ["W"]⟩ 5 "W" pwEx wEx rfl rfl
  obtain ⟨e2, g1, g2, g3, g4⟩ :=
    C5_dictionary_redefinition.2 ⟨[("W", wEx)], ["W"]⟩ 6 "V" pwEx rfl
  exact ⟨rfl, h4, rfl⟩

/-- **C6** — Protected-word immutability: on a name bound to a protected
word, every `define` and every `forget` fails, and any number of attempted
mutations of that name leaves the dictionary (mapping and
`definitionOrder`) exactly as it was. -/
theorem C6_protected_word_immutability :
    ∀ (d : Dictionary) (name : String) (ex : Word),
      d.find name = some ex → ex.prot = true →
      (∀ (now : Nat) (w : PartialWord),
        d.define now name w =
          .error (.plain ("Cannot redefine protected word: " ++ name))) ∧
      (d.forget name = .error (.plain ("Cannot forget protected word: " ++ name))) ∧
      (∀ attempts : List DictAttempt, attempts.foldl (applyAttempt name) d = d) := by
  intro d name ex h hprot
  refine ⟨fun now w => define_protected d now w h hprot,
    forget_protected d h hprot, ?_⟩
  intro attempts
  induction attempts with
  | nil => rfl
  | cons a rest ih =>
    have hstep : applyAttempt name d a = d := by
      cases a with
      | defineA now w => simp [applyAttempt, define_protected d now w h hprot]
      | forgetA => simp [applyAttempt, forget_protected d h hprot]
    simpa [List.foldl_cons, hstep] using ih

/-- Witness for C6: in a one-word dictionary holding the protected `P`,
a define, a forget, and a three-attempt sequence all fail and change
nothing. -/
theorem C6_protected_word_immutability_witness :
    (Dictionary.define ⟨[("P", wProtEx)], ["P"]⟩ 7 "P" pwEx =
      .error (.plain ("Cannot redefine protected word: " ++ "P"))) ∧
    (Dictionary.forget ⟨[("P", wProtEx)], ["P"]⟩ "P" =
      .error (.plain ("Cannot forget protected word: " ++ "P"))) ∧
    ([DictAttempt.defineA 7 pwEx, DictAttempt.forgetA,
      DictAttempt.defineA 9 pwEx].foldl (applyAttempt "P") ⟨[("P", wProtEx)], ["P"]⟩ =
        (⟨[("P", wProtEx)], ["P"]⟩ : Dictionary)) := by
  have h := C6_protected_word_immutability ⟨[("P", wProtEx)], ["P"]⟩ "P" wProtEx rfl rfl
  exact ⟨h.1 7 pwEx, h.2.1, h.2.2 _⟩

/-- **C7 (counterexample)** — the claim states that every error the core
raises, including the protected-word and unknown-word failures, carries a
machine-readable kind tag plus context.  But `src/dictionary.ts` throws
bare `Error`s whose only payload is a message string: redefining the
protected CORE word `DUP` on a bootstrapped VM raises an error with no
kind tag at all (the repository's own tests match these errors by message
only). -/
theorem C7_counterexample :
    ∃ e, (bootstrapVM 0 none).dictionary.define 5 "DUP" pwEx = .error e ∧
      errorHasKindTag e = false :=
  ⟨.plain "Cannot redefine protected word: DUP", rfl, rfl⟩

/-- **C7 (amended)** — Error payloads as the code builds them: stack
overflow/underflow and word-not-found failures are `REIError`s carrying a
machine-readable kind tag (`STACK_OVERFLOW`, `STACK_UNDERFLOW`,
`WORD_NOT_FOUND`), word-not-found additionally carrying the offending name
in its context record; the dictionary's protected-word and unknown-word
failures are plain `Error`s whose free-form message names the offending
word but which carry no machine-readable kind tag. -/
theorem C7_error_payloads :
    (∀ (s : Stack) (v : StackValue), s.maxDepth ≤ s.items.length →
      s.push v = .error (.rei "Stack overflow" "STACK_OVERFLOW" none)) ∧
    (∀ s : Stack, s.items = [] →
      s.pop = .error (.rei "Stack underflow" "STACK_UNDERFLOW" none)) ∧
    (∀ (f : Nat) (vm : VM) (name : String), vm.dictionary.find name = none →
      executeN (f + 1) vm name =
        (vm, some (.rei ("Word not found: " ++ name) "WORD_NOT_FOUND"
          (some [("word", name)])))) ∧
    (∀ (d : Dictionary) (now : Nat) (name : String) (w : PartialWord) (ex : Word),
      d.find name = some ex → ex.prot = true →
      d.define now name w =
        .error (.plain ("Cannot redefine protected word: " ++ name))) ∧
    (∀ (d : Dictionary) (name : String) (ex : Word),
      d.find name = some ex → ex.prot = true →
      d.forget name = .error (.plain ("Cannot forget protected word: " ++ name))) ∧
    (∀ (d : Dictionary) (name : String), d.find name = none →
      d.forget name = .error (.plain ("Cannot forget unknown word: " ++ name))) := by
  refine ⟨?_, ?_, ?_, ?_, ?_, ?_⟩
  · intro s v h
    simp [Stack.push, h, stackOverflowError]
  · intro s h
    simp [Stack.pop, h, stackUnderflowError]
  · intro f vm name h
    simp [executeN, h, wordNotFoundError]
  · intro d now name w ex h hprot
    exact define_protected d now w h hprot
  · intro d name ex h hprot
    exact forget_protected d h hprot
  · intro d name h
    exact forget_unknown d h

/-- Witness for the amended C7 at concrete inputs. -/
theorem C7_error_payloads_witness :
    (Stack.push ⟨[.null], 1⟩ .null =
      .error (.rei "Stack overflow" "STACK_OVERFLOW" none)) ∧
    (Stack.pop (Stack.new 1) =
      .error (.rei "Stack underflow" "STACK_UNDERFLOW" none)) ∧
    (executeN 5 (VM.new none) "NOPE" =
      (VM.new none, some (.rei ("Word not found: " ++ "NOPE") "WORD_NOT_FOUND"
        (some [("word", "NOPE")])))) ∧
    (Dictionary.define ⟨[("P", wProtEx)], ["P"]⟩ 2 "P" pwEx =
      .error (.plain ("Cannot redefine protected word: " ++ "P"))) ∧
    (Dictionary.forget ⟨[("P", wProtEx)], ["P"]⟩ "P" =
      .error (.plain ("Cannot forget protected word: " ++ "P"))) ∧
    (Dictionary.forget Dictionary.new "Q" =
      .error (.plain ("Cannot forget unknown word: " ++ "Q"))) :=
  ⟨C7_error_payloads.1 ⟨[.null], 1⟩ .null (by decide),
   C7_error_payloads.2.1 (Stack.new 1) rfl,
   C7_error_payloads.2.2.1 4 (VM.new none) "NOPE" rfl,
   C7_error_payloads.2.2.2.1 ⟨[("P", wProtEx)], ["P"]⟩ 2 "P" pwEx wProtEx rfl rfl,
   C7_error_payloads.2.2.2.2.1 ⟨[("P", wProtEx)], ["P"]⟩ "P" wProtEx rfl rfl,
   C7_error_payloads.2.2.2.2.2 Dictionary.new "Q" rfl⟩

/-- The example USER word `SQUARE`, as a `Partial<Word>` with compiled body
`["DUP", "*"]`. -/
def squarePartial : PartialWord :=
  { stackEffect := some "( n -- n*n )", body := some (.compiled ["DUP", "*"]),
    immediate := some false, prot := some false, category := some .USER,
    metadata := some (.mk 1 0 .undef none) }

/-- A bootstrapped VM with `SQUARE` defined. -/
def vmSquare : VM :=
  let vm := bootstrapVM 0 none
  { vm with dictionary := defineD vm.dictionary 1 "SQUARE" squarePartial }

/-- **C4** — Token dispatch and compiled-word recursion: executing a word
with a compiled body runs the per-token loop over its tokens; in that loop
a token that lexes as a numeral is pushed (never looked up) and any other
token is executed by name via the dictionary; `run` applies the same
dispatch to `parse(sourceText)`; consequently, on a bootstrapped VM with
`SQUARE = ["DUP", "*"]`, `run("8 SQUARE")` succeeds and leaves `64` on top
of the data stack. -/
theorem C4_token_dispatch_and_square :
    (∀ (f : Nat) (vm : VM) (w : Word) (toks : List String), w.body = .compiled toks →
      executeW (f + 1) vm w = execBody f vm toks) ∧
    (∀ (f : Nat) (vm : VM) (t : String) (ts : List String) (n : JSNum),
      jsNumber t = some n →
      execBody (f + 1) vm (t :: ts) =
        match vm.dataStack.push (.num n) with
        | .ok s => execBody f (vm.setData s) ts
        | .error e => (vm, some e)) ∧
    (∀ (f : Nat) (vm : VM) (t : String) (ts : List String),
      jsNumber t = none →
      execBody (f + 1) vm (t :: ts) =
        match executeN (f + 1) vm t with
        | (vm2, none) => execBody f vm2 ts
        | r => r) ∧
    (∀ (fuel : Nat) (vm : VM) (code : String),
      VM.run fuel vm code = execBody fuel vm (parse code)) ∧
    ((VM.run 100 vmSquare "8 SQUARE").2 = none ∧
      (VM.run 100 vmSquare "8 SQUARE").1.dataStack.peek = .ok (.num (.fin (.int 64)))) := by
  refine ⟨?_, ?_, ?_, fun _ _ _ => rfl, by decide, by rfl⟩
  · intro f vm w toks h
    simp [executeW, h]
  · intro f vm t ts n h
    simp [execBody, h]
  · intro f vm t ts h
    simp only [execBody, h]
    cases hf : vm.dictionary.find t with
    | none => simp [executeN, hf]
    | some w =>
      cases hb : w.body with
      | native op => simp only [executeN, hf, hb]
      | compiled inner => simp only [executeN, hf, hb]

/-- Witness for C4 at concrete inputs: executing the compiled word `W`
runs its body; a numeral token is pushed; an unknown non-numeral token is
dispatched through `execute`. -/
theorem C4_token_dispatch_and_square_witness :
    (executeW 1 (VM.new none) wEx = execBody 0 (VM.new none) ["1"]) ∧
    (execBody 1 (VM.new none) ["7"] =
      match (VM.new none).dataStack.push (.num (.fin (.int 7))) with
      | .ok s => execBody 0 ((VM.new none).setData s) []
      | .error e => (VM.new none, some e)) ∧
    (execBody 1 (VM.new none) ["NOPE"] =
      match executeN 1 (VM.new none) "NOPE" with
      | (vm2, none) => execBody 0 vm2 []
      | r => r) :=
  ⟨C4_token_dispatch_and_square.1 0 (VM.new none) wEx ["1"] rfl,
   C4_token_dispatch_and_square.2.1 0 (VM.new none) "7" [] (.fin (.int 7)) (by decide),
   C4_token_dispatch_and_square.2.2.1 0 (VM.new none) "NOPE" [] (by decide)⟩

/-- A USER word whose compiled body duplicates the top of the stack and
then names an unknown word. -/
def badPartial : PartialWord :=
  { stackEffect := some "( -- )", body := some (.compiled ["DUP", "NOPE"]),
    immediate := some false, prot := some false, category := some .USER,
    metadata := some (.mk 1 0 .undef none) }

/-- A bootstrapped VM with `BAD = ["DUP", "NOPE"]` defined. -/
def vmBad : VM :=
  let vm := bootstrapVM 0 none
  { vm with dictionary := defineD vm.dictionary 1 "BAD" badPartial }

/-- **C8 (counterexample)** — the claim states that when `run` fails at the
k-th token, the stack afterwards is exactly as it was just before the
failing token.  Running `"5 BAD"` on a bootstrapped VM with
`BAD = ["DUP", "NOPE"]` fails at the second token `BAD` (with
`WordNotFound` for `NOPE`); just before that token the stack is `[5]`, but
the failed run leaves `[5, 5]`: the mutation `BAD`'s body performed before
its failure also survives, so the stack is not "exactly as it was just
before the failing token". -/
theorem C8_counterexample :
    (VM.run 100 vmBad "5 BAD").2 = some (wordNotFoundError "NOPE") ∧
    (VM.run 100 vmBad "5").2 = none ∧
    (VM.run 100 vmBad "5").1.dataStack.snapshot = [.num (.fin (.int 5))] ∧
    (VM.run 100 vmBad "5 BAD").1.dataStack.snapshot =
      [.num (.fin (.int 5)), .num (.fin (.int 5))] ∧
    ([StackValue.num (.fin (.int 5)), .num (.fin (.int 5))] ≠
      [StackValue.num (.fin (.int 5))]) :=
  ⟨by decide, by decide, by decide, by decide, by decide⟩

/-- **C8 (amended)** — Failure propagation without rollback: if the first
tokens of a run succeed and the next token neither lexes as a numeral nor
resolves in the dictionary, the whole run returns that `WordNotFound`
error unchanged together with exactly the state the successful prefix
produced — the prefix's stack mutations remain in effect and nothing is
rolled back.  (When the failing token is instead a word that mutates the
stack before failing, those mutations persist too, as the counterexample
shows; the "exactly as before the failing token" phrasing holds for the
claim's own example, a top-level unknown word, which this theorem
states.) -/
theorem C8_failure_propagation :
    ∀ (f : Nat) (vm : VM) (ts1 : List String) (t : String) (ts2 : List String) (vm1 : VM),
      ts1.length < f →
      execBody f vm ts1 = (vm1, none) →
      jsNumber t = none →
      vm1.dictionary.find t = none →
      execBody f vm (ts1 ++ t :: ts2) = (vm1, some (wordNotFoundError t)) := by
  intro f vm ts1
  induction ts1 generalizing f vm with
  | nil =>
    intro t ts2 vm1 hlen h1 ht hfind
    cases f with
    | zero => omega
    | succ g =>
      simp only [execBody] at h1
      have hv : vm = vm1 := congrArg Prod.fst h1
      subst hv
      simp [execBody, ht, hfind]
  | cons s rest ih =>
    intro t ts2 vm1 hlen h1 ht hfind
    cases f with
    | zero => simp at hlen
    | succ g =>
      have hg : rest.length < g := by
        simp only [List.length_cons] at hlen
        omega
      simp only [List.cons_append]
      simp only [execBody] at h1 ⊢
      cases hjs : jsNumber s with
      | some n =>
        simp only [hjs] at h1 ⊢
        cases hp : vm.dataStack.push (.num n) with
        | ok s2 =>
          simp only [hp] at h1 ⊢
          exact ih g _ t ts2 vm1 hg h1 ht hfind
        | error e =>
          simp only [hp] at h1
          have := congrArg Prod.snd h1
          simp at this
      | none =>
        simp only [hjs] at h1 ⊢
        cases hf2 : vm.dictionary.find s with
        | none =>
          simp only [hf2] at h1
          have := congrArg Prod.snd h1
          simp at this
        | some w =>
          simp only [hf2] at h1 ⊢
          cases hb : w.body with
          | native op =>
            simp only [hb] at h1 ⊢
            cases hn : execNative op vm with
            | mk vm2 e =>
              cases e with
              | none =>
                simp only [hn] at h1 ⊢
                exact ih g vm2 t ts2 vm1 hg h1 ht hfind
              | some err =>
                simp only [hn] at h1
                have := congrArg Prod.snd h1
                simp at this
          | compiled inner =>
            simp only [hb] at h1 ⊢
            cases hr : execBody g vm inner with
            | mk vm2 e =>
              cases e with
              | none =>
                simp only [hr] at h1 ⊢
                exact ih g vm2 t ts2 vm1 hg h1 ht hfind
              | some err =>
                simp only [hr] at h1
                have := congrArg Prod.snd h1
                simp at this

/-- Witness for the amended C8: running `["5", "NOPE"]` returns the state
after the successful prefix `["5"]` together with the `WordNotFound`
error. -/
theorem C8_failure_propagation_witness :
    execBody 10 (bootstrapVM 0 none) (["5"] ++ "NOPE" :: []) =
      ((execBody 10 (bootstrapVM 0 none) ["5"]).1, some (wordNotFoundError "NOPE")) :=
  C8_failure_propagation 10 (bootstrapVM 0 none) ["5"] "NOPE" []
    (execBody 10 (bootstrapVM 0 none) ["5"]).1 (by decide) rfl (by decide) rfl

theorem serializeLoop_spec (d : Dictionary) (names : List String) :
    serializeLoop d names =
      (names.map (fun n => serializeWord ((d.find n).getD defaultWord)), d) := by
  induction names with
  | nil => rfl
  | cons n rest ih => simp [serializeLoop, Dictionary.findS, ih]

/-- **C9** — `serialize` is read-only: threading the VM through every
method call `serialize` performs (`list`, `find` per word, `snapshot`)
returns the VM unchanged, so every observation — both stack snapshots,
`dictionary.list()` and every `dictionary.find(name)` — is the same after
the call as before, and the value produced is the pure `serialize`
rendering of the state. -/
theorem C9_serialize_readonly :
    ∀ (vm : VM) (now : Nat),
      (vm.serializeS now).2 = vm ∧
      (vm.serializeS now).1 = vm.serialize now ∧
      (vm.serializeS now).2.dataStack.snapshot = vm.dataStack.snapshot ∧
      (vm.serializeS now).2.returnStack.snapshot = vm.returnStack.snapshot ∧
      (vm.serializeS now).2.dictionary.list none = vm.dictionary.list none ∧
      (∀ name, (vm.serializeS now).2.dictionary.find name = vm.dictionary.find name) := by
  intro vm now
  have h2 : (vm.serializeS now).2 = vm := by
    simp [VM.serializeS, Dictionary.listS, serializeLoop_spec, Stack.snapshotS]
  refine ⟨h2, ?_, by rw [h2], by rw [h2], by rw [h2], fun name => by rw [h2]⟩
  simp [VM.serializeS, VM.serialize, Dictionary.listS, serializeLoop_spec, Stack.snapshotS]

theorem execNative_frame (op : NativeOp) (vm : VM) :
    (execNative op vm).1.dictionary = vm.dictionary ∧
    (execNative op vm).1.returnStack = vm.returnStack ∧
    (execNative op vm).1.config = vm.config := by
  unfold execNative
  cases nativeBody op vm.dataStack with
  | ok s => simp [VM.setData]
  | error r =>
    obtain ⟨s, e⟩ := r
    simp [VM.setData]

theorem execNative_agree (op : NativeOp) (vm1 vm2 : VM)
    (h : vm1.dataStack = vm2.dataStack) :
    (execNative op vm1).1.dataStack = (execNative op vm2).1.dataStack ∧
    (execNative op vm1).2 = (execNative op vm2).2 := by
  unfold execNative
  rw [h]
  cases nativeBody op vm2.dataStack with
  | ok s => simp [VM.setData]
  | error r =>
    obtain ⟨s, e⟩ := r
    simp [VM.setData]

theorem execBody_frame :
    ∀ (f : Nat) (vm : VM) (toks : List String),
      (execBody f vm toks).1.dictionary = vm.dictionary ∧
      (execBody f vm toks).1.returnStack = vm.returnStack ∧
      (execBody f vm toks).1.config = vm.config := by
  intro f
  induction f with
  | zero =>
    intro vm toks
    cases toks <;> simp [execBody]
  | succ g ih =>
    intro vm toks
    cases toks with
    | nil => simp [execBody]
    | cons t ts =>
      simp only [execBody]
      cases hjs : jsNumber t with
      | some n =>
        simp only [hjs]
        cases hp : vm.dataStack.push (.num n) with
        | ok s =>
          simp only [hp]
          simpa [VM.setData] using ih (vm.setData s) ts
        | error e => simp [hp]
      | none =>
        simp only [hjs]
        cases hf : vm.dictionary.find t with
        | none => simp [hf]
        | some w =>
          simp only [hf]
          cases hb : w.body with
          | native op =>
            simp only [hb]
            have hfr := execNative_frame op vm
            cases hn : execNative op vm with
            | mk vm2 e =>
              rw [hn] at hfr
              cases e with
              | none =>
                simp only [hn]
                have h2 := ih vm2 ts
                exact ⟨h2.1.trans (by simpa using hfr.1),
                  h2.2.1.trans (by simpa using hfr.2.1),
                  h2.2.2.trans (by simpa using hfr.2.2)⟩
              | some err =>
                simp only [hn]
                exact ⟨by simpa using hfr.1, by simpa using hfr.2.1,
                  by simpa using hfr.2.2⟩
          | compiled inner =>
            simp only [hb]
            have hfr := ih vm inner
            cases hr : execBody g vm inner with
            | mk vm2 e =>
              rw [hr] at hfr
              cases e with
              | none =>
                simp only [hr]
                have h2 := ih vm2 ts
                exact ⟨h2.1.trans (by simpa using hfr.1),
                  h2.2.1.trans (by simpa using hfr.2.1),
                  h2.2.2.trans (by simpa using hfr.2.2)⟩
              | some err =>
                simp only [hr]
                exact ⟨by simpa using hfr.1, by simpa using hfr.2.1,
                  by simpa using hfr.2.2⟩

theorem execBody_agree :
    ∀ (f : Nat) (toks : List String) (vm1 vm2 : VM),
      vm1.dataStack = vm2.dataStack →
      DictAgree vm1.dictionary vm2.dictionary →
      (execBody f vm1 toks).1.dataStack = (execBody f vm2 toks).1.dataStack ∧
      (execBody f vm1 toks).2 = (execBody f vm2 toks).2 := by
  intro f
  induction f with
  | zero =>
    intro toks vm1 vm2 hds hda
    cases toks <;> simp [execBody, hds]
  | succ g ih =>
    intro toks vm1 vm2 hds hda
    cases toks with
    | nil => simpa [execBody] using hds
    | cons t ts =>
      simp only [execBody]
      cases hjs : jsNumber t with
      | some n =>
        simp only [hjs, hds]
        cases hp : vm2.dataStack.push (.num n) with
        | ok s =>
          simp only [hp]
          exact ih ts (vm1.setData s) (vm2.setData s) rfl hda
        | error e =>
          simp only [hp]
          exact ⟨hds, trivial⟩
      | none =>
        have hfind : vm1.dictionary.find t = vm2.dictionary.find t := hda t hjs
        simp only [hjs, hfind]
        cases hf : vm2.dictionary.find t with
        | none =>
          simp only [hf]
          exact ⟨hds, trivial⟩
        | some w =>
          simp only [hf]
          cases hb : w.body with
          | native op =>
            simp only [hb]
            have hag := execNative_agree op vm1 vm2 hds
            have hfr1 := execNative_frame op vm1
            have hfr2 := execNative_frame op vm2
            cases hn1 : execNative op vm1 with
            | mk vmA e1 =>
              cases hn2 : execNative op vm2 with
              | mk vmB e2 =>
                rw [hn1] at hag hfr1
                rw [hn2] at hag hfr2
                have he : e1 = e2 := hag.2
                subst he
                cases e1 with
                | none =>
                  simp only [hn1, hn2]
                  refine ih ts vmA vmB (by simpa using hag.1) ?_
                  have d1 : vmA.dictionary = vm1.dictionary := hfr1.1
                  have d2 : vmB.dictionary = vm2.dictionary := hfr2.1
                  rw [d1, d2]
                  exact hda
                | some err =>
                  simp only [hn1, hn2]
                  exact ⟨by simpa using hag.1, trivial⟩
          | compiled inner =>
            simp only [hb]
            have hinner := ih inner vm1 vm2 hds hda
            have hfr1 := execBody_frame g vm1 inner
            have hfr2 := execBody_frame g vm2 inner
            cases hn1 : execBody g vm1 inner with
            | mk vmA e1 =>
              cases hn2 : execBody g vm2 inner with
              | mk vmB e2 =>
                rw [hn1, hn2] at hinner
                rw [hn1] at hfr1
                rw [hn2] at hfr2
                have he : e1 = e2 := hinner.2
                subst he
                cases e1 with
                | none =>
                  simp only [hn1, hn2]
                  refine ih ts vmA vmB (by simpa using hinner.1) ?_
                  have d1 : vmA.dictionary = vm1.dictionary := hfr1.1
                  have d2 : vmB.dictionary = vm2.dictionary := hfr2.1
                  rw [d1, d2]
                  exact hda
                | some err =>
                  simp only [hn1, hn2]
                  exact ⟨by simpa using hinner.1, trivial⟩

theorem mapGet_append (m1 m2 : List (String × Word)) (k : String) :
    mapGet (m1 ++ m2) k =
      match mapGet m1 k with
      | some v => some v
      | none => mapGet m2 k := by
  induction m1 with
  | nil => simp [mapGet]
  | cons p rest ih =>
    by_cases hp : p.1 = k
    · simp [mapGet, hp]
    · simp [mapGet, hp, ih]

/-- **C10** — The numeral test is JavaScript `Number` conversion, which
accepts `"0x10"`, `"1e3"`, `"-5"` and `"Infinity"`; a token accepted by it
is pushed without any dictionary lookup, so the interpreter's data stack
and error are completely insensitive to the dictionary's bindings at
numeral names: two VMs whose dictionaries agree on all non-numeral names
run every token sequence to the same stack and the same error — a word
whose name converts to a non-`NaN` number is unreachable by name through
`run` or a compiled body. -/
theorem C10_numeral_test_and_shadowing :
    (jsNumber "0x10" = some (.fin (.int 16))) ∧
    (jsNumber "1e3" = some (.fin (.int 1000))) ∧
    (jsNumber "-5" = some (.fin (.int (-5)))) ∧
    (jsNumber "Infinity" = some .posInf) ∧
    (∀ (f : Nat) (vm : VM) (t : String) (ts : List String) (n : JSNum),
      jsNumber t = some n →
      execBody (f + 1) vm (t :: ts) =
        match vm.dataStack.push (.num n) with
        | .ok s => execBody f (vm.setData s) ts
        | .error e => (vm, some e)) ∧
    (∀ (f : Nat) (toks : List String) (vm1 vm2 : VM),
      vm1.dataStack = vm2.dataStack →
      DictAgree vm1.dictionary vm2.dictionary →
      (execBody f vm1 toks).1.dataStack = (execBody f vm2 toks).1.dataStack ∧
      (execBody f vm1 toks).2 = (execBody f vm2 toks).2) := by
  refine ⟨by decide, by decide, by decide, by decide, ?_, execBody_agree⟩
  intro f vm t ts n h
  simp [execBody, h]

/-- A USER word named `"5"` — a name that lexes as a numeral. -/
def numNameWord : Word :=
  .mk "5" "( -- )" (.compiled ["666"]) false false .USER (.mk 2 0 .undef none)

/-- The bootstrapped dictionary with the word `"5"` appended (as `define`
would append it). -/
def shadowDict : Dictionary :=
  ⟨(bootstrapVM 0 none).dictionary.words ++ [("5", numNameWord)],
   (bootstrapVM 0 none).dictionary.definitionOrder ++ ["5"]⟩

/-- The bootstrapped VM carrying the word `"5"`. -/
def vmShadow : VM := { bootstrapVM 0 none with dictionary := shadowDict }

/-- Witness for C10: the presence or absence of the word `"5"` makes no
difference to running the token `"5"` — both VMs push the number, and the
shadowed word's body (`["666"]`) never runs. -/
theorem C10_numeral_test_and_shadowing_witness :
    (execBody 5 vmShadow ["5"]).1.dataStack =
      (execBody 5 (bootstrapVM 0 none) ["5"]).1.dataStack ∧
    (execBody 5 vmShadow ["5"]).2 = (execBody 5 (bootstrapVM 0 none) ["5"]).2 :=
  C10_numeral_test_and_shadowing.2.2.2.2.2 5 ["5"] vmShadow (bootstrapVM 0 none) rfl
    (fun n hn => by
      have h5 : jsNumber "5" = some (.fin (.int 5)) := by decide
      have hne : ¬("5" = n) := fun h => by rw [← h, h5] at hn; cases hn
      have hnone : mapGet [("5", numNameWord)] n = none := by
        simp [mapGet, hne]
      show Dictionary.find shadowDict n = _
      unfold Dictionary.find shadowDict
      rw [mapGet_append, hnone]
      cases mapGet (bootstrapVM 0 none).dictionary.words n <;> rfl)

theorem Word.eta (w : Word) :
    Word.mk w.name w.stackEffect w.body w.immediate w.prot w.category w.metadata = w := by
  cases w
  rfl

theorem completeWord_wordToPartial (now : Nat) (n : String) (w : Word) (hn : w.name = n) :
    completeWord now n (wordToPartial w) = w := by
  cases w
  cases hn
  rfl

theorem map_id_on {α : Type} (l : List α) (f : α → α) (h : ∀ x ∈ l, f x = x) :
    l.map f = l := by
  induction l with
  | nil => rfl
  | cons x xs ih =>
    simp only [List.map_cons, h x (List.mem_cons_self _ _)]
    rw [ih (fun y hy => h y (List.mem_cons_of_mem _ hy))]

theorem copyWords_spec :
    ∀ (names : List String) (d0 : Dictionary) (now : Nat) (src : Dictionary),
      names.Nodup →
      (∀ n ∈ names, d0.find n = none) →
      (∀ n ∈ names, ∃ w, src.find n = some w ∧ w.name = n) →
      ∃ d2, copyWords d0 now src names = .ok d2 ∧
        (∀ n w, n ∈ names → src.find n = some w → d2.find n = some w) ∧
        (∀ n, n ∉ names → d2.find n = d0.find n) := by
  intro names
  induction names with
  | nil =>
    intro d0 now src _ _ _
    exact ⟨d0, rfl, by simp, fun n _ => rfl⟩
  | cons m rest ih =>
    intro d0 now src hnd h0 hsrc
    obtain ⟨w, hw, hwn⟩ := hsrc m (List.mem_cons_self _ _)
    have hm0 : d0.find m = none := h0 m (List.mem_cons_self _ _)
    have hdef := define_fresh d0 now m (wordToPartial w) hm0
    have hmrest : m ∉ rest := (List.nodup_cons.mp hnd).1
    have hrestnd : rest.Nodup := (List.nodup_cons.mp hnd).2
    obtain ⟨d2, hcopy, hfound, huntouched⟩ :=
      ih { words := mapSet d0.words m (completeWord now m (wordToPartial w)),
           definitionOrder := d0.definitionOrder ++ [m] } now src hrestnd
        (fun n hn => by
          have hne : n ≠ m := fun h => hmrest (h ▸ hn)
          show mapGet (mapSet d0.words m _) n = none
          rw [mapGet_mapSet_ne d0.words m n _ hne]
          exact h0 n (List.mem_cons_of_mem _ hn))
        (fun n hn => hsrc n (List.mem_cons_of_mem _ hn))
    refine ⟨d2, ?_, ?_, ?_⟩
    · simp only [copyWords, hw, hdef]
      exact hcopy
    · intro n w2 hn hfind
      rcases List.mem_cons.mp hn with hnm | hnr
      · subst hnm
        have hw2 : w2 = w := by
          rw [hw] at hfind
          exact (Option.some.injEq _ _ ▸ hfind).symm
        subst hw2
        rw [huntouched n hmrest]
        show mapGet (mapSet d0.words n _) n = some w2
        rw [mapGet_mapSet_self, completeWord_wordToPartial now n w2 hwn]
      · exact hfound n w2 hnr hfind
    · intro n hn
      have hnm : n ≠ m := fun h => hn (h ▸ List.mem_cons_self _ _)
      have hnr : n ∉ rest := fun h => hn (List.mem_cons_of_mem _ h)
      rw [huntouched n hnr]
      show mapGet (mapSet d0.words m _) n = _
      rw [mapGet_mapSet_ne d0.words m n _ hnm]
      rfl

instance (d : Dictionary) : Decidable d.WF := by
  unfold Dictionary.WF
  infer_instance

instance (vm : VM) : Decidable vm.WF := by
  unfold VM.WF
  infer_instance

theorem find_name_of_WF {d : Dictionary} (hname : ∀ p ∈ d.words, (p.2 : Word).name = p.1)
    {n : String} {w : Word} (h : d.find n = some w) : w.name = n :=
  hname (n, w) (mapGet_mem h)

/-- A bootstrapped VM after `run("5 3")` (the spec's clone scenario). -/
def vm53 : VM := (VM.run 100 (bootstrapVM 0 none) "5 3").1

/-- Its clone. -/
def vmClone53 : VM := (vm53.clone 7).1

/-- **C2** — Clone independence: for every well-formed VM, `clone()`
succeeds, the clone's `dataStack.snapshot()` equals the original's, and
every dictionary entry (protected CORE words included, with their
protection flags — the whole `Word` value is preserved) is present in the
clone.  In this functional model the two VMs are separate values, so a
stack operation or `run` on one cannot change the other by construction
(the code achieves the same by copying, never sharing, the backing
arrays); the spec's own scenario witnesses it: after `run("5 3")` and a
clone, running `"+"` on the clone yields stack `[8]` while the original
still holds `[5, 3]`. -/
theorem C2_clone_independence :
    (∀ (vm : VM) (now : Nat), vm.WF →
      (vm.clone now).2 = none ∧
      (vm.clone now).1.dataStack.snapshot = vm.dataStack.snapshot ∧
      (∀ n w, vm.dictionary.find n = some w →
        (vm.clone now).1.dictionary.find n = some w)) ∧
    ((VM.run 100 vmClone53 "+").2 = none ∧
      (VM.run 100 vmClone53 "+").1.dataStack.snapshot = [.num (.fin (.int 8))] ∧
      vm53.dataStack.snapshot = [.num (.fin (.int 5)), .num (.fin (.int 3))]) := by
  constructor
  · intro vm now hWF
    obtain ⟨⟨hnd, _, hmem, hiso, hname⟩, hdlen, hdmax, hrlen, hrmax⟩ := hWF
    obtain ⟨d2, hcopy, hfound, _⟩ := copyWords_spec (vm.dictionary.list none)
      (VM.new (some vm.config)).dictionary now vm.dictionary hnd
      (fun n _ => rfl)
      (fun n hn => by
        have hs : (mapGet vm.dictionary.words n).isSome = true := hiso n hn
        obtain ⟨w, hw⟩ := Option.isSome_iff_exists.mp hs
        exact ⟨w, hw, find_name_of_WF hname hw⟩)
    have hnewds : (VM.new (some vm.config)).dataStack = Stack.new vm.dataStack.maxDepth := by
      rw [hdmax]
      rfl
    have hnewrs : (VM.new (some vm.config)).returnStack =
        Stack.new vm.returnStack.maxDepth := by
      rw [hrmax]
      rfl
    have hp1 : pushAll (VM.new (some vm.config)).dataStack vm.dataStack.items.reverse =
        .ok ⟨vm.dataStack.items, vm.dataStack.maxDepth⟩ := by
      rw [hnewds]
      have := pushAll_ok vm.dataStack.items.reverse (Stack.new vm.dataStack.maxDepth)
        (by simp [Stack.new, hdlen])
      simpa [Stack.new] using this
    have hp2 : pushAll (VM.new (some vm.config)).returnStack vm.returnStack.items.reverse =
        .ok ⟨vm.returnStack.items, vm.returnStack.maxDepth⟩ := by
      rw [hnewrs]
      have := pushAll_ok vm.returnStack.items.reverse (Stack.new vm.returnStack.maxDepth)
        (by simp [Stack.new, hrlen])
      simpa [Stack.new] using this
    refine ⟨?_, ?_, ?_⟩
    · simp [VM.clone, Stack.snapshot, hcopy, hp1, hp2, VM.setData]
    · simp [VM.clone, Stack.snapshot, hcopy, hp1, hp2, VM.setData]
    · intro n w hfind
      have hn : n ∈ vm.dictionary.list none :=
        hmem (n, w) (mapGet_mem hfind)
      have hf2 := hfound n w hn hfind
      simp [VM.clone, Stack.snapshot, hcopy, hp1, hp2, VM.setData]
      exact hf2
  · exact ⟨by decide, by decide, by decide⟩

/-- Witness for C2: cloning a freshly bootstrapped VM succeeds, reproduces
its (empty) stack snapshot, and carries over the protected CORE word `DUP`
with all its fields. -/
theorem C2_clone_independence_witness :
    ((bootstrapVM 0 none).clone 3).2 = none ∧
    ((bootstrapVM 0 none).clone 3).1.dataStack.snapshot =
      (bootstrapVM 0 none).dataStack.snapshot ∧
    ((bootstrapVM 0 none).clone 3).1.dictionary.find "DUP" =
      some (coreWord 0 "DUP" "( n -- n n )" .dup "Duplicate the top stack value") := by
  have h := C2_clone_independence.1 (bootstrapVM 0 none) 3 (by decide)
  exact ⟨h.1, h.2.1, h.2.2 "DUP" _ rfl⟩

theorem restoreWords_spec :
    ∀ (sws : List SerializedWord) (d0 : Dictionary) (now : Nat),
      (sws.map SerializedWord.name).Nodup →
      (∀ sw ∈ sws, d0.find sw.name = none) →
      ∃ d2, restoreWords d0 now sws = .ok d2 ∧
        (∀ sw ∈ sws, ∀ toks, sw.body = some toks →
          d2.find sw.name = some (.mk sw.name sw.stackEffect (.compiled toks)
            sw.immediate false .USER sw.metadata)) ∧
        (∀ sw ∈ sws, sw.body = none → d2.find sw.name = none) ∧
        (∀ n, n ∉ sws.map SerializedWord.name → d2.find n = d0.find n) := by
  intro sws
  induction sws with
  | nil =>
    intro d0 now _ _
    exact ⟨d0, rfl, by simp, by simp, fun n _ => rfl⟩
  | cons sw rest ih =>
    intro d0 now hnd h0
    have hnd2 : (sw.name :: rest.map SerializedWord.name).Nodup := by simpa using hnd
    have hnm : sw.name ∉ rest.map SerializedWord.name := (List.nodup_cons.mp hnd2).1
    have hrestnd : (rest.map SerializedWord.name).Nodup := (List.nodup_cons.mp hnd2).2
    cases hb : sw.body with
    | none =>
      obtain ⟨d2, hrw, hcomp, hnat, hout⟩ := ih d0 now hrestnd
        (fun s hs => h0 s (List.mem_cons_of_mem _ hs))
      refine ⟨d2, ?_, ?_, ?_, ?_⟩
      · simp only [restoreWords, hb]
        exact hrw
      · intro s hs toks hbs
        rcases List.mem_cons.mp hs with h | h
        · subst h
          rw [hb] at hbs
          cases hbs
        · exact hcomp s h toks hbs
      · intro s hs hbs
        rcases List.mem_cons.mp hs with h | h
        · subst h
          rw [hout s.name hnm]
          exact h0 s (List.mem_cons_self _ _)
        · exact hnat s h hbs
      · intro n hn
        have hn2 : n ∉ rest.map SerializedWord.name := fun h => hn (by simp [h])
        exact hout n hn2
    | some toks0 =>
      have hdef := define_fresh d0 now sw.name
        { stackEffect := some sw.stackEffect, body := some (.compiled toks0),
          immediate := some sw.immediate, prot := some false,
          category := some .USER, metadata := some sw.metadata }
        (h0 sw (List.mem_cons_self _ _))
      obtain ⟨d2, hrw, hcomp, hnat, hout⟩ := ih
        { words := mapSet d0.words sw.name (completeWord now sw.name
            { stackEffect := some sw.stackEffect, body := some (.compiled toks0),
              immediate := some sw.immediate, prot := some false,
              category := some .USER, metadata := some sw.metadata }),
          definitionOrder := d0.definitionOrder ++ [sw.name] } now hrestnd
        (fun s hs => by
          have hne : s.name ≠ sw.name := fun h => hnm (h ▸ List.mem_map_of_mem _ hs)
          show mapGet (mapSet d0.words sw.name _) s.name = none
          rw [mapGet_mapSet_ne _ _ _ _ hne]
          exact h0 s (List.mem_cons_of_mem _ hs))
      refine ⟨d2, ?_, ?_, ?_, ?_⟩
      · simp only [restoreWords, hb, hdef]
        exact hrw
      · intro s hs toks hbs
        rcases List.mem_cons.mp hs with h | h
        · subst h
          rw [hb] at hbs
          cases hbs
          rw [hout s.name hnm]
          show mapGet (mapSet d0.words s.name _) s.name = _
          rw [mapGet_mapSet_self]
          rfl
        · exact hcomp s h toks hbs
      · intro s hs hbs
        rcases List.mem_cons.mp hs with h | h
        · subst h
          rw [hb] at hbs
          cases hbs
        · exact hnat s h hbs
      · intro n hn
        have hne : n ≠ sw.name := fun h => hn (by simp [h])
        have hn2 : n ∉ rest.map SerializedWord.name := fun h => hn (by simp [h])
        rw [hout n hn2]
        show mapGet (mapSet d0.words sw.name _) n = _
        rw [mapGet_mapSet_ne _ _ _ _ hne]
        rfl

theorem mem_list_filter {d : Dictionary} {n : String} {cat : Category} :
    n ∈ d.list (some cat) ↔ n ∈ d.definitionOrder ∧
      ∃ w, mapGet d.words n = some w ∧ w.category = cat := by
  simp only [Dictionary.list, List.mem_filter]
  constructor
  · rintro ⟨h1, h2⟩
    cases hm : mapGet d.words n with
    | none =>
      rw [hm] at h2
      simp at h2
    | some w =>
      rw [hm] at h2
      refine ⟨h1, w, rfl, by simpa using h2⟩
  · rintro ⟨h1, w, hw, hc⟩
    refine ⟨h1, ?_⟩
    rw [hw]
    simpa using hc

/-- **C1** — Serialize/deserialize round-trip: for a well-formed VM with a
non-empty data stack that fits in the fresh VM's default capacity and
whose USER-word names collide with nothing bootstrapped,
`deserialize(serialize())` into a freshly bootstrapped VM succeeds; it
reproduces `dataStack.snapshot()` exactly; every USER word with a compiled
body is restored exactly — name, stack effect, decoded body, `immediate`
flag and metadata — and every USER word with a native body is silently
skipped (absent from the restored VM) rather than raising an error. -/
theorem C1_serialize_deserialize_roundtrip :
    ∀ (vm : VM) (now1 now2 now3 : Nat),
      vm.dictionary.WF →
      vm.dataStack.items ≠ [] →
      vm.dataStack.items.length ≤ 256 →
      (∀ n ∈ vm.dictionary.list (some .USER),
        (bootstrapVM now2 none).dictionary.find n = none) →
      ((bootstrapVM now2 none).deserialize (vm.serialize now1) now3).2 = none ∧
      ((bootstrapVM now2 none).deserialize (vm.serialize now1) now3).1.dataStack.snapshot =
        vm.dataStack.snapshot ∧
      (∀ n w toks, vm.dictionary.find n = some w → w.category = .USER →
        w.body = .compiled toks →
        ∃ w2, ((bootstrapVM now2 none).deserialize (vm.serialize now1) now3).1.dictionary.find n
            = some w2 ∧
          w2.name = w.name ∧ w2.stackEffect = w.stackEffect ∧ w2.body = w.body ∧
          w2.immediate = w.immediate ∧ w2.metadata = w.metadata) ∧
      (∀ n w op, vm.dictionary.find n = some w → w.category = .USER →
        w.body = .native op →
        ((bootstrapVM now2 none).deserialize (vm.serialize now1) now3).1.dictionary.find n
          = none) := by
  intro vm now1 now2 now3 hWF hne hlen hfresh
  obtain ⟨hnd, hwnd, hmem, hiso, hname⟩ := hWF
  have husers : ∀ n ∈ vm.dictionary.list (some .USER),
      ∃ w, vm.dictionary.find n = some w ∧ w.name = n ∧ w.category = .USER := by
    intro n hn
    obtain ⟨h1, w, hw, hc⟩ := mem_list_filter.mp hn
    exact ⟨w, hw, find_name_of_WF hname hw, hc⟩
  have hnames : ((vm.dictionary.list (some .USER)).map
      (fun n => serializeWord ((vm.dictionary.find n).getD defaultWord))).map
      SerializedWord.name = vm.dictionary.list (some .USER) := by
    rw [List.map_map]
    apply map_id_on
    intro n hn
    obtain ⟨w, hw, hwn, _⟩ := husers n hn
    simp [Function.comp, hw, serializeWord, hwn]
  have hlistnd : (vm.dictionary.list (some .USER)).Nodup := List.Nodup.filter _ hnd
  obtain ⟨d2, hrw, hcomp, hnat, hout⟩ := restoreWords_spec
    ((vm.dictionary.list (some .USER)).map
      (fun n => serializeWord ((vm.dictionary.find n).getD defaultWord)))
    (bootstrapVM now2 none).dictionary now3
    (by rw [hnames]; exact hlistnd)
    (by
      intro sw hsw
      obtain ⟨n, hn, hg⟩ := List.mem_map.mp hsw
      obtain ⟨w, hw, hwn, _⟩ := husers n hn
      have hswn : sw.name = n := by
        rw [← hg]
        simp [hw, serializeWord, hwn]
      rw [hswn]
      exact hfresh n hn)
  have hpush : pushAll ((bootstrapVM now2 none).dataStack.clear)
      vm.dataStack.items.reverse = .ok ⟨vm.dataStack.items, 256⟩ := by
    have hc : (bootstrapVM now2 none).dataStack.clear = (⟨[], 256⟩ : Stack) := rfl
    rw [hc]
    have := pushAll_ok vm.dataStack.items.reverse ⟨[], 256⟩ (by simpa using hlen)
    simpa using this
  have hdeser : (bootstrapVM now2 none).deserialize (vm.serialize now1) now3 =
      ({ dataStack := ⟨vm.dataStack.items, 256⟩,
         returnStack := (bootstrapVM now2 none).returnStack,
         dictionary := d2, config := (bootstrapVM now2 none).config }, none) := by
    simp only [VM.deserialize, VM.serialize, Stack.snapshot, hpush, VM.setData]
    simp only [hrw]
  refine ⟨by rw [hdeser], by rw [hdeser]; simp [Stack.snapshot], ?_, ?_⟩
  · intro n w toks hfind hcat hbody
    have hmemu : n ∈ vm.dictionary.list (some .USER) :=
      mem_list_filter.mpr ⟨hmem (n, w) (mapGet_mem hfind), w, hfind, hcat⟩
    have hsw : serializeWord w ∈ (vm.dictionary.list (some .USER)).map
        (fun n => serializeWord ((vm.dictionary.find n).getD defaultWord)) := by
      have := List.mem_map_of_mem
        (fun n => serializeWord ((vm.dictionary.find n).getD defaultWord)) hmemu
      simpa [hfind] using this
    have hbody2 : (serializeWord w).body = some toks := by
      simp [serializeWord, hbody]
    have hres := hcomp (serializeWord w) hsw toks hbody2
    have hwn : w.name = n := find_name_of_WF hname hfind
    rw [hdeser]
    refine ⟨.mk (serializeWord w).name (serializeWord w).stackEffect (.compiled toks)
      (serializeWord w).immediate false .USER (serializeWord w).metadata, ?_, ?_⟩
    · show d2.find n = _
      rw [← hwn]
      have : (serializeWord w).name = w.name := rfl
      rw [← this]
      exact hres
    · refine ⟨rfl, rfl, ?_, rfl, rfl⟩
      show WordBody.compiled toks = w.body
      rw [hbody]
  · intro n w op hfind hcat hbody
    have hmemu : n ∈ vm.dictionary.list (some .USER) :=
      mem_list_filter.mpr ⟨hmem (n, w) (mapGet_mem hfind), w, hfind, hcat⟩
    have hsw : serializeWord w ∈ (vm.dictionary.list (some .USER)).map
        (fun n => serializeWord ((vm.dictionary.find n).getD defaultWord)) := by
      have := List.mem_map_of_mem
        (fun n => serializeWord ((vm.dictionary.find n).getD defaultWord)) hmemu
      simpa [hfind] using this
    have hbody2 : (serializeWord w).body = none := by
      simp [serializeWord, hbody]
    have hres := hnat (serializeWord w) hsw hbody2
    have hwn : w.name = n := find_name_of_WF hname hfind
    rw [hdeser]
    show d2.find n = none
    rw [← hwn]
    exact hres

/-- A native-bodied USER word, as a `Partial<Word>` (exercises the
native-skip path of `deserialize`). -/
def natPartial : PartialWord :=
  { stackEffect := some "( -- )", body := some (.native .dup),
    immediate := some false, prot := some false, category := some .USER,
    metadata := some (.mk 1 0 .undef none) }

/-- A bootstrapped VM with a compiled USER word `SQ`, a native USER word
`NAT`, and `5` on the data stack (the round-trip witness input). -/
def vmRound : VM :=
  let vm := bootstrapVM 0 none
  let d1 := defineD vm.dictionary 1 "SQ" squarePartial
  let d2 := defineD d1 1 "NAT" natPartial
  (VM.run 100 { vm with dictionary := d2 } "5").1

/-- The word `deserialize` restores for `SQ` in the round-trip witness. -/
def sqRestored : Word :=
  .mk "SQ" "( n -- n*n )" (.compiled ["DUP", "*"]) false false .USER (.mk 1 0 .undef none)

/-- Witness for C1: round-tripping `vmRound` through
`deserialize(serialize())` into a fresh bootstrap succeeds, reproduces the
stack snapshot, restores the compiled word `SQ` exactly, and silently
drops the native word `NAT`. -/
theorem C1_serialize_deserialize_roundtrip_witness :
    ((bootstrapVM 3 none).deserialize (vmRound.serialize 2) 4).2 = none ∧
    ((bootstrapVM 3 none).deserialize (vmRound.serialize 2) 4).1.dataStack.snapshot =
      vmRound.dataStack.snapshot ∧
    ((bootstrapVM 3 none).deserialize (vmRound.serialize 2) 4).1.dictionary.find "SQ" =
      some sqRestored ∧
    ((bootstrapVM 3 none).deserialize (vmRound.serialize 2) 4).1.dictionary.find "NAT" =
      none := by
  have h := C1_serialize_deserialize_roundtrip vmRound 2 3 4 (by decide) (by decide)
    (by decide)
    (by
      intro n hn
      have hl : vmRound.dictionary.list (some .USER) = ["SQ", "NAT"] := by decide
      rw [hl] at hn
      simp only [List.mem_cons, List.not_mem_nil, or_false] at hn
      rcases hn with rfl | rfl <;> rfl)
  refine ⟨h.1, h.2.1, rfl,
    h.2.2.2 "NAT" (.mk "NAT" "( -- )" (.native .dup) false false .USER (.mk 1 0 .undef none))
      .dup rfl rfl rfl⟩

end REIVM
